import Mathlib

/-!
Shallow embedding of the RmlUi data-binding subsystem (early revision):
the expression virtual machine and recursive-descent compiler
(`Source/Core/DataParser.cpp`, duplicated in `Source/Core/DataView.cpp`),
the address parser and variable reflection layer (`unnamed/part_000`),
and the view update engine (`Source/Core/DataView.cpp`).

Modelling conventions:
* C++ `String` is modelled as `List Char` (`Str`).
* C++ `float` is modelled as `Rat`; all values appearing in the claims are
  small integers or short strings, on which IEEE single-precision arithmetic
  is exact, so the rational model is faithful there.
* C++ `int` is modelled as `Int` where signedness matters.
* The `Variant` class and its `TypeConverter` conversions are not part of the
  given sources (only their call sites are); the conversion functions below
  are modelled from the spec and standard C library behaviour and are marked
  as such.
-/

namespace Rml

/-- C++ `String`, modelled as a list of characters. -/
abbrev Str := List Char

/-- The NUL character, which `ParserContext::Look` returns at end of input. -/
def nulChar : Char := Char.ofNat 0

/-- Modelled from the spec: `StringUtilities::IsWhitespace` (not in src);
whitespace characters recognised while scanning. -/
def isWhitespaceChar (c : Char) : Bool :=
  c = ' ' || c = '\t' || c = '\n' || c = '\r'

/-- Decimal digit test, mirroring the C++ comparisons `c >= '0' && c <= '9'`. -/
def isDigitChar (c : Char) : Bool :=
  '0' ≤ c && c ≤ '9'

/-- Letter test, mirroring `(c >= 'a' && c <= 'z') || (c >= 'A' && c <= 'Z')`. -/
def isAlphaChar (c : Char) : Bool :=
  ('a' ≤ c && c ≤ 'z') || ('A' ≤ c && c ≤ 'Z')

/-- Value of a digit character. -/
def digitVal (c : Char) : Nat := c.toNat - '0'.toNat

/-- Helper: read a maximal run of decimal digits into a natural number,
returning the value, the number of digits consumed, and the rest. -/
def readDigits : Str → Nat → Nat × Nat × Str
  | [], acc => (acc, 0, [])
  | c :: cs, acc =>
    if isDigitChar c then
      let (v, k, rest) := readDigits cs (acc * 10 + digitVal c)
      (v, k + 1, rest)
    else (acc, 0, c :: cs)

/-- Decimal digits of a natural number (auxiliary for `natToStr`). -/
def natToStrAux : Nat → Nat → Str
  | 0, _ => []
  | fuel + 1, n =>
    if n = 0 then []
    else natToStrAux fuel (n / 10) ++ [Char.ofNat ('0'.toNat + n % 10)]

/-- Decimal representation of a natural number. -/
def natToStr (n : Nat) : Str :=
  if n = 0 then ['0'] else natToStrAux (n + 1) n

/-- Decimal representation of an integer. -/
def intToStr (i : Int) : Str :=
  if i < 0 then '-' :: natToStr i.natAbs else natToStr i.natAbs

/-- The model of C++ `float`: an exact fraction with a positive
denominator (kept unnormalised so that every operation is a structural
computation).  All float values the claims exercise are small integers or
one-digit decimals, on which IEEE single precision is exact, so the exact
fraction model is faithful there. -/
structure Flt where
  num : Int
  den : Int
deriving DecidableEq

instance (n : Nat) : OfNat Flt n :=
  ⟨⟨n, 1⟩⟩

namespace Flt

/-- Float addition. -/
def add (a b : Flt) : Flt :=
  ⟨a.num * b.den + b.num * a.den, a.den * b.den⟩

/-- Float subtraction. -/
def sub (a b : Flt) : Flt :=
  ⟨a.num * b.den - b.num * a.den, a.den * b.den⟩

/-- Float multiplication. -/
def mul (a b : Flt) : Flt :=
  ⟨a.num * b.num, a.den * b.den⟩

/-- Float division; division by zero is modelled as 0 (the C++ produces an
IEEE infinity, which no claim exercises). -/
def div (a b : Flt) : Flt :=
  if b.num = 0 then ⟨0, 1⟩
  else if 0 < b.num then ⟨a.num * b.den, a.den * b.num⟩
  else ⟨-(a.num * b.den), a.den * (-b.num)⟩

/-- Float equality (cross multiplication; denominators are positive by
construction). -/
def beq (a b : Flt) : Bool :=
  a.num * b.den = b.num * a.den

/-- Float strict order. -/
def blt (a b : Flt) : Bool :=
  a.num * b.den < b.num * a.den

/-- Float non-strict order. -/
def ble (a b : Flt) : Bool :=
  a.num * b.den ≤ b.num * a.den

/-- Whether the float is zero. -/
def isZero (a : Flt) : Bool :=
  a.num = 0

/-- Truncation toward zero, the C++ float→int conversion. -/
def trunc (a : Flt) : Int :=
  (if 0 ≤ a.num then 1 else -1) * ((a.num.natAbs / a.den.natAbs : Nat) : Int)

end Flt

/-- Modelled from the spec: C++ float-to-string conversion.  Exact on
integral values; non-integral fractions are printed as `num/den`, which no
claim depends on. -/
def fltToStr (q : Flt) : Str :=
  if q.den = 1 then intToStr q.num
  else intToStr q.num ++ '/' :: intToStr q.den

/-- Modelled from the spec: RmlUi's `FromString<int>(str, default)` (not in
src) follows `sscanf("%d")`: skip leading whitespace, optional sign, then
decimal digits; `none` when no digit is found (conversion failure).
Trailing characters (such as the `]` that `ParseAddress` leaves in the
substring) are ignored. -/
def parseIntOpt (s : Str) : Option Int :=
  let s := s.dropWhile (fun c => isWhitespaceChar c)
  match s with
  | '-' :: rest =>
    let (v, k, _) := readDigits rest 0
    if k = 0 then none else some (-(v : Int))
  | '+' :: rest =>
    let (v, k, _) := readDigits rest 0
    if k = 0 then none else some (v : Int)
  | _ =>
    let (v, k, _) := readDigits s 0
    if k = 0 then none else some (v : Int)

/-- `FromString<int>(str, default)`: the parse above with a default. -/
def fromStringInt (s : Str) (dflt : Int) : Int :=
  (parseIntOpt s).getD dflt

/-- Modelled from the spec: RmlUi's `FromString<float>(str, default)` (not in
src) follows `sscanf("%f")` on the number shapes the tokenizer produces
(optional sign, digits, at most one dot): parse a leading decimal number,
`none` when no digit is present (conversion failure). -/
def parseFloatOpt (s : Str) : Option Flt :=
  let s := s.dropWhile (fun c => isWhitespaceChar c)
  let core : Str → Int → Option Flt := fun t sign =>
    let (v, k, rest) := readDigits t 0
    match rest with
    | '.' :: frac =>
      let (fv, fk, _) := readDigits frac 0
      if k = 0 && fk = 0 then none
      else some ⟨sign * ((v : Int) * (10 : Int) ^ fk + (fv : Int)), (10 : Int) ^ fk⟩
    | _ => if k = 0 then none else some ⟨sign * (v : Int), 1⟩
  match s with
  | '-' :: rest => core rest (-1)
  | '+' :: rest => core rest 1
  | _ => core s 1

/-- `FromString<float>(str, default)`: the parse above with a default. -/
def fromStringFloat (s : Str) (dflt : Flt) : Flt :=
  (parseFloatOpt s).getD dflt

/-- The dynamically typed value class, C++ `Variant`.  Only the alternatives
exercised by the data-binding sources are modelled. -/
inductive Variant where
  | none
  | bool (b : Bool)
  | int (i : Int)
  | float (q : Flt)
  | str (s : Str)
deriving DecidableEq

namespace Variant

/-- `Variant::GetType() == Variant::STRING`. -/
def isString : Variant → Bool
  | .str _ => true
  | _ => false

/-- Modelled from the spec: `Variant::Get<String>` (Variant is not in src);
every alternative converts to its textual form. -/
def getString : Variant → Str
  | .none => []
  | .bool b => if b then ['1'] else ['0']
  | .int i => intToStr i
  | .float q => fltToStr q
  | .str s => s

/-- Modelled from the spec: `Variant::Get<float>`; numbers convert exactly,
booleans to 0/1, strings by `FromString<float>` with default 0. -/
def getFloat : Variant → Flt
  | .none => 0
  | .bool b => if b then 1 else 0
  | .int i => ⟨i, 1⟩
  | .float q => q
  | .str s => fromStringFloat s 0

/-- Modelled from the spec: `Variant::Get<bool>`; numbers are truthy when
non-zero, strings when they parse to a non-zero number. -/
def getBool : Variant → Bool
  | .none => false
  | .bool b => b
  | .int i => i ≠ 0
  | .float q => !q.isZero
  | .str s => fromStringInt s 0 ≠ 0

/-- Modelled from the spec: `Variant::Get<int>(default)`; the VM stores exact
`int` payloads (registers, argument counts), so only the `.int` case is
exercised by the programs the compiler emits. -/
def getInt (d : Int) : Variant → Int
  | .none => d
  | .bool b => if b then 1 else 0
  | .int i => i
  | .float q => q.trunc
  | .str s => fromStringInt s d

end Variant

/-- The instruction set of the abstract machine (`enum class Instruction`). -/
inductive Instruction where
  | push
  | pop
  | literal
  | varLookup
  | add
  | subtract
  | multiply
  | divide
  | not
  | and
  | or
  | equal
  | notEqual
  | less
  | lessEq
  | greater
  | greaterEq
  | ternary
  | arguments
  | function
deriving DecidableEq

/-- One instruction with its optional payload (`struct InstructionData`). -/
structure InstructionData where
  instruction : Instruction
  data : Variant
deriving DecidableEq

/-- A compiled program (`using Program = std::vector<InstructionData>`). -/
abbrev Program := List InstructionData

/-- The three registers (`enum class Register`). -/
inductive Register where
  | R
  | L
  | C
deriving DecidableEq

/-- The integer encoding `int(destination)` the parser stores in the `Pop`
payload. -/
def Register.encode : Register → Int
  | .R => 0
  | .L => 1
  | .C => 2

/-- The mutable state of `ExecutionContext`: three registers, the program
stack (head = top of `std::stack`), and the argument list. -/
structure ExecState where
  R : Variant
  L : Variant
  C : Variant
  stack : List Variant
  args : List Variant
deriving DecidableEq

/-- Fresh execution state: default-constructed registers and empty stacks. -/
def ExecState.init : ExecState :=
  ⟨.none, .none, .none, [], []⟩

/-- Runtime failures of `ExecutionContext::Execute`, each corresponding to
one `return Error(...)` branch. -/
inductive ExErr where
  | popEmptyStack
  | invalidRegister
  | argsNotEmpty
  | negativeArgCount
  | argsUnderflow
deriving DecidableEq

/-- `v1.GetType() == Variant::STRING || v2.GetType() == Variant::STRING`,
the `AnyString` lambda that decides string dispatch at execution time. -/
def anyString (v1 v2 : Variant) : Bool :=
  v1.isString || v2.isString

/-- One step of `ExecutionContext::Execute(instruction, data)`. -/
def step (ins : InstructionData) (es : ExecState) : Except ExErr ExecState :=
  match ins.instruction with
  | .push => .ok { es with stack := es.R :: es.stack, R := .none }
  | .pop =>
    match es.stack with
    | [] => .error .popEmptyStack
    | top :: rest =>
      match ins.data.getInt (-1) with
      | 0 => .ok { es with R := top, stack := rest }
      | 1 => .ok { es with L := top, stack := rest }
      | 2 => .ok { es with C := top, stack := rest }
      | _ => .error .invalidRegister
  | .literal => .ok { es with R := ins.data }
  | .varLookup =>
    -- The source carries `TODO: fetch from data model`; it writes the
    -- payload (the variable name) into R.
    .ok { es with R := ins.data }
  | .add =>
    if anyString es.L es.R then
      .ok { es with R := .str (es.L.getString ++ es.R.getString) }
    else
      .ok { es with R := .float (Flt.add es.L.getFloat es.R.getFloat) }
  | .subtract => .ok { es with R := .float (Flt.sub es.L.getFloat es.R.getFloat) }
  | .multiply => .ok { es with R := .float (Flt.mul es.L.getFloat es.R.getFloat) }
  | .divide => .ok { es with R := .float (Flt.div es.L.getFloat es.R.getFloat) }
  | .not => .ok { es with R := .bool (! es.R.getBool) }
  | .and => .ok { es with R := .bool (es.L.getBool && es.R.getBool) }
  | .or => .ok { es with R := .bool (es.L.getBool || es.R.getBool) }
  | .equal =>
    if anyString es.L es.R then
      .ok { es with R := .bool (es.L.getString = es.R.getString) }
    else
      .ok { es with R := .bool (Flt.beq es.L.getFloat es.R.getFloat) }
  | .notEqual =>
    if anyString es.L es.R then
      .ok { es with R := .bool (es.L.getString ≠ es.R.getString) }
    else
      .ok { es with R := .bool (!Flt.beq es.L.getFloat es.R.getFloat) }
  | .less => .ok { es with R := .bool (Flt.blt es.L.getFloat es.R.getFloat) }
  | .lessEq => .ok { es with R := .bool (Flt.ble es.L.getFloat es.R.getFloat) }
  | .greater => .ok { es with R := .bool (Flt.blt es.R.getFloat es.L.getFloat) }
  | .greaterEq => .ok { es with R := .bool (Flt.ble es.R.getFloat es.L.getFloat) }
  | .ternary => .ok (if es.L.getBool then { es with R := es.C } else es)
  | .arguments =>
    if es.args ≠ [] then .error .argsNotEmpty
    else
      let n := ins.data.getInt (-1)
      if n < 0 then .error .negativeArgCount
      else if es.stack.length < n.toNat then .error .argsUnderflow
      else
        .ok { es with args := (es.stack.take n.toNat).reverse,
                      stack := es.stack.drop n.toNat }
  | .function =>
    -- The source carries `TODO: execute function`; it logs the call and
    -- clears the argument list, leaving R (the implicit argument) in place.
    .ok { es with args := [] }

/-- `ExecutionContext::Run`: execute the instructions in order, aborting at
the first failing instruction. -/
def run : Program → ExecState → Except ExErr ExecState
  | [], es => .ok es
  | i :: p, es =>
    match step i es with
    | .ok es' => run p es'
    | .error e => .error e

/-- The non-parse-error path of `ParserContext::Execute`: run the program on
a fresh `ExecutionContext`; on success return `Result()` (R as a string), on
runtime failure return the empty string. -/
def executeProgram (p : Program) : Str :=
  match run p ExecState.init with
  | .ok es => es.R.getString
  | .error _ => []

/-! ## The recursive-descent compiler (`namespace Parser`, DataParser.cpp)

`ParserContext` is embedded as the state record `PSt`.  The `parse_depth`
field is omitted: the source only reads it in a debug log line.  The
mutually recursive parse procedures dispatched through
`ParserContext::Enter(Type)` are embedded as one fuel-indexed function
`enter`; the C++ `while` loops inside `Expression`, `Term` and `Function`
become the extra dispatch values `exprLoop`, `termLoop` and `funcArgs`.
Running out of fuel is recorded as a parse error, so any state with
`parseError = false` describes a genuine terminating run of the C++
parser. -/

/-- The state of `ParserContext`. -/
structure PSt where
  expr : Str
  index : Nat
  reachedEnd : Bool
  parseError : Bool
  programStackSize : Int
  program : Program
deriving DecidableEq

/-- `ParserContext::Look`: the current character, NUL at end of input. -/
def look (st : PSt) : Char :=
  st.expr.getD st.index nulChar

/-- `ParserContext::Next` (the returned character is re-read by callers). -/
def next (st : PSt) : PSt :=
  { st with index := st.index + 1 }

/-- `ParserContext::Error`: flags the parse as failed (the message is only
logged). -/
def perror (st : PSt) : PSt :=
  { st with parseError := true }

/-- Fuel-indexed body of `ParserContext::SkipWhitespace`. -/
def skipWSAux : Nat → PSt → PSt
  | 0, st => st
  | fuel + 1, st =>
    if isWhitespaceChar (look st) then skipWSAux fuel (next st) else st

/-- `ParserContext::SkipWhitespace`.  Each loop iteration advances `index`
and `look` past the end of input is NUL (not whitespace), so
`expr.length + 1` fuel always suffices. -/
def skipWhitespace (st : PSt) : PSt :=
  skipWSAux (st.expr.length + 1) st

/-- `ParserContext::Match(c, skip_whitespace)`; callers discard the boolean
result, so only the state effect is modelled. -/
def matchC (c : Char) (skipWs : Bool) (st : PSt) : PSt :=
  if look st = c then
    let st := next st
    if skipWs then skipWhitespace st else st
  else perror st

/-- `ParserContext::Emit` (non-stack instructions only, as asserted in the
source). -/
def emit (st : PSt) (ins : Instruction) (data : Variant) : PSt :=
  { st with program := st.program ++ [⟨ins, data⟩] }

/-- `ParserContext::Push`: count one stack slot and emit `Push`. -/
def pushE (st : PSt) : PSt :=
  { st with programStackSize := st.programStackSize + 1,
            program := st.program ++ [⟨.push, .none⟩] }

/-- `ParserContext::Pop`: refuse to emit when the tracked stack is empty. -/
def popE (st : PSt) (dest : Register) : PSt :=
  if st.programStackSize ≤ 0 then perror st
  else
    { st with programStackSize := st.programStackSize - 1,
              program := st.program ++ [⟨.pop, .int dest.encode⟩] }

/-- `ParserContext::Arguments`: refuse to emit when fewer than
`num_arguments` tracked slots are available. -/
def argumentsE (st : PSt) (numArguments : Int) : PSt :=
  if st.programStackSize < numArguments then perror st
  else
    { st with programStackSize := st.programStackSize - numArguments,
              program := st.program ++ [⟨.arguments, .int numArguments⟩] }

/-- Scanning loop of the free function `StringLiteral`: consume until an
unescaped quote or end of input, keeping escape characters in the text. -/
def stringLitAux : Nat → Str → Bool → PSt → Str × PSt
  | 0, acc, _, st => (acc, st)
  | fuel + 1, acc, prevEsc, st =>
    let c := look st
    if c ≠ nulChar ∧ (c ≠ '\'' ∨ prevEsc) then
      stringLitAux fuel (acc ++ [c]) (c = '\\') (next st)
    else (acc, st)

/-- The free function `StringLiteral(context)`. -/
def stringLiteral (st : PSt) : PSt :=
  let r := stringLitAux (st.expr.length + 1) [] false st
  emit r.2 .literal (.str r.1)

/-- Scanning loop of `NumberLiteral`: digits with at most one dot. -/
def numberLitAux : Nat → Str → Bool → Bool → PSt → Str × Bool × PSt
  | 0, acc, firstMatch, _, st => (acc, firstMatch, st)
  | fuel + 1, acc, firstMatch, hasDot, st =>
    let c := look st
    if isDigitChar c ∨ (c = '.' ∧ ¬hasDot) then
      numberLitAux fuel (acc ++ [c]) true (hasDot ∨ c = '.') (next st)
    else (acc, firstMatch, st)

/-- The free function `NumberLiteral(context)`: optional leading minus, the
digit loop, then either an error (no digit matched) or a float literal
parsed by `FromString`. -/
def numberLiteral (st : PSt) : PSt :=
  let start :=
    if look st = '-' then (['-'], next st) else (([] : Str), st)
  let r := numberLitAux (start.2.expr.length + 1) start.1 false false start.2
  if ¬r.2.1 then perror r.2.2
  else emit r.2.2 .literal (.float (fromStringFloat r.1 0))

/-- The free function `IsVariableCharacter`. -/
def isVariableCharacter (c : Char) (isFirstCharacter : Bool) : Bool :=
  if isFirstCharacter then isAlphaChar c
  else isAlphaChar c || isDigitChar c ||
    c = '_' || c = '.' || c = '[' || c = ']' || c = ' '

/-- Scanning loop of `VariableName`. -/
def varNameAux : Nat → Str → Bool → PSt → Str × PSt
  | 0, acc, _, st => (acc, st)
  | fuel + 1, acc, isFirst, st =>
    let c := look st
    if isVariableCharacter c isFirst then
      varNameAux fuel (acc ++ [c]) false (next st)
    else (acc, st)

/-- The right-trim at the end of `VariableName`: drop trailing spaces but
never shrink below one character (the C++ loop stops at position 1). -/
def rtrimName (s : Str) : Str :=
  s.take (max (s.length - (s.reverse.takeWhile (fun c => c = ' ')).length) 1)

/-- The free function `VariableName(context)`. -/
def variableName (st : PSt) : Str × PSt :=
  let r := varNameAux (st.expr.length + 1) [] true st
  (rtrimName r.1, r.2)

/-- The free function `DoVariable(context)`: the bare words `true`/`false`
compile to boolean literals, anything else to a `Variable` lookup. -/
def doVariable (st : PSt) : PSt :=
  let r := variableName st
  if r.1 = [] then perror r.2
  else if r.1 = ['t', 'r', 'u', 'e'] then emit r.2 .literal (.bool true)
  else if r.1 = ['f', 'a', 'l', 's', 'e'] then emit r.2 .literal (.bool false)
  else emit r.2 .varLookup (.str r.1)

/-- Dispatch values for `enter`: the members of `enum class Type` that
recurse through `Enter`, plus the three in-function loops (`exprLoop`,
`termLoop`, `funcArgs`).  `funcArgs` carries the transform name and the
number of arguments parsed so far (a non-negative C++ `int`). -/
inductive PTy where
  | expression
  | exprLoop
  | term
  | termLoop
  | factor
  | stringLit
  | numberLit
  | var
  | add
  | subtract
  | multiply
  | divide
  | not
  | and
  | or
  | equal
  | notEqual
  | less
  | greater
  | ternary
  | function
  | funcArgs (name : Str) (num : Nat)
deriving DecidableEq

/-- Epilogue of `Function` after its argument loop: collect the arguments
and restore the implicit argument into R, then emit the call. -/
def funcFinish (name : Str) (num : Nat) (st : PSt) : PSt :=
  if 0 < num then
    emit (popE (argumentsE st (num : Int)) .R) .function (.str name)
  else emit st .function (.str name)

/-- `ParserContext::Enter(type)` together with all parse procedures of
DataParser.cpp, as one fuel-indexed function.  Exhausting the fuel is
recorded as a parse error, so `parseError = false` results correspond
exactly to terminating runs of the C++ parser. -/
def enter : Nat → PTy → PSt → PSt
  | 0, _, st => perror st
  | f + 1, ty, st =>
    match ty with
    | .expression => enter f .exprLoop (enter f .term st)
    | .exprLoop =>
      let c := look st
      if c = '+' then enter f .exprLoop (enter f .add st)
      else if c = '-' then enter f .exprLoop (enter f .subtract st)
      else if c = '?' then enter f .exprLoop (enter f .ternary st)
      else if c = '|' then
        let st := matchC '|' false st
        if look st = '|' then enter f .exprLoop (enter f .or st)
        else enter f .exprLoop (enter f .function (skipWhitespace st))
      else if c = '&' then enter f .exprLoop (enter f .and st)
      else if c = '=' then enter f .exprLoop (enter f .equal st)
      else if c = '!' then enter f .exprLoop (enter f .notEqual st)
      else if c = '<' then enter f .exprLoop (enter f .less st)
      else if c = '>' then enter f .exprLoop (enter f .greater st)
      else if c = nulChar then { st with reachedEnd := true }
      else st
    | .term => enter f .termLoop (enter f .factor st)
    | .termLoop =>
      let c := look st
      if c = '*' then enter f .termLoop (enter f .multiply st)
      else if c = '/' then enter f .termLoop (enter f .divide st)
      else st
    | .factor =>
      let c := look st
      if c = '(' then
        matchC ')' true (enter f .expression (matchC '(' true st))
      else if c = '\'' then
        matchC '\'' true (enter f .stringLit (matchC '\'' false st))
      else if c = '!' then
        skipWhitespace (enter f .not st)
      else if c = '-' ∨ isDigitChar c then
        skipWhitespace (enter f .numberLit st)
      else if isAlphaChar c then
        skipWhitespace (enter f .var st)
      else perror st
    | .stringLit => stringLiteral st
    | .numberLit => numberLiteral st
    | .var => doVariable st
    | .add =>
      let st := matchC '+' true st
      let st := pushE st
      let st := enter f .term st
      let st := popE st .L
      emit st .add .none
    | .subtract =>
      let st := matchC '-' true st
      let st := pushE st
      let st := enter f .term st
      let st := popE st .L
      emit st .subtract .none
    | .multiply =>
      let st := matchC '*' true st
      let st := pushE st
      let st := enter f .factor st
      let st := popE st .L
      emit st .multiply .none
    | .divide =>
      let st := matchC '/' true st
      let st := pushE st
      let st := enter f .factor st
      let st := popE st .L
      emit st .divide .none
    | .not =>
      let st := matchC '!' true st
      let st := enter f .factor st
      emit st .not .none
    | .and =>
      let st := matchC '&' false st
      let st := matchC '&' true st
      let st := pushE st
      let st := enter f .term st
      let st := popE st .L
      emit st .and .none
    | .or =>
      -- the first '|' was already consumed inside the expression loop
      let st := matchC '|' true st
      let st := pushE st
      let st := enter f .term st
      let st := popE st .L
      emit st .or .none
    | .equal =>
      let st := matchC '=' false st
      let st := matchC '=' true st
      let st := pushE st
      let st := enter f .term st
      let st := popE st .L
      emit st .equal .none
    | .notEqual =>
      let st := matchC '!' false st
      let st := matchC '=' true st
      let st := pushE st
      let st := enter f .term st
      let st := popE st .L
      emit st .notEqual .none
    | .less =>
      let st := matchC '<' false st
      let p :=
        if look st = '=' then (Instruction.lessEq, matchC '=' true st)
        else (Instruction.less, skipWhitespace st)
      let st := pushE p.2
      let st := enter f .term st
      let st := popE st .L
      emit st p.1 .none
    | .greater =>
      let st := matchC '>' false st
      let p :=
        if look st = '=' then (Instruction.greaterEq, matchC '=' true st)
        else (Instruction.greater, skipWhitespace st)
      let st := pushE p.2
      let st := enter f .term st
      let st := popE st .L
      emit st p.1 .none
    | .ternary =>
      let st := matchC '?' true st
      let st := pushE st
      let st := enter f .expression st
      let st := pushE st
      let st := matchC ':' true st
      let st := enter f .expression st
      let st := popE st .C
      let st := popE st .L
      emit st .ternary .none
    | .function =>
      -- the leading '|' was already consumed inside the expression loop
      let r := variableName st
      if r.1 = [] then perror r.2
      else if look r.2 = '(' then
        let st := matchC '(' true r.2
        if look st = ')' then
          funcFinish r.1 0 (matchC ')' true st)
        else
          enter f (.funcArgs r.1 0) (pushE st)
      else funcFinish r.1 0 (skipWhitespace r.2)
    | .funcArgs name num =>
      let st := enter f .expression st
      let st := pushE st
      let c := look st
      if c = ')' then funcFinish name (num + 1) (matchC ')' true st)
      else if c = ',' then enter f (.funcArgs name (num + 1)) (matchC ',' true st)
      else funcFinish name (num + 1) (perror st)

/-- Fresh parser state over an expression string. -/
def initSt (s : Str) : PSt :=
  ⟨s, 0, false, false, 0, []⟩

/-- `ParserContext::Parse`: enter the top-level expression and require that
the whole input was consumed. -/
def parseWith (fuel : Nat) (s : Str) : PSt :=
  let st := enter fuel .expression (initSt s)
  if ¬st.reachedEnd then perror st else st

/-- `ParserContext::Execute`: a parse error yields the empty string,
otherwise the program runs on a fresh execution context. -/
def executeCtx (st : PSt) : Str :=
  if st.parseError then [] else executeProgram st.program

/-! ## The address parser and variable reflection layer (`namespace Data`,
`unnamed/part_000`) -/

/-- `Data::AddressEntry`: a field name (index initialised to −1) or an
integer index (name left empty); the two C++ constructors. -/
structure AddressEntry where
  name : Str
  index : Int
deriving DecidableEq

/-- The name constructor `AddressEntry(String name)`. -/
def nameEntry (s : Str) : AddressEntry :=
  ⟨s, -1⟩

/-- The index constructor `AddressEntry(int index)`. -/
def indexEntry (i : Int) : AddressEntry :=
  ⟨[], i⟩

/-- `Data::Address`. -/
abbrev Address := List AddressEntry

/-- Modelled from the spec: `StringUtilities::ExpandString(list, str, '.')`
(not in src) splits the address string at `'.'` separators, matching the
spec grammar `address := segment ('.' segment)*`.  (The real helper also
strips whitespace and understands quoting, which no address in the claims
uses.)  The result is never the empty list. -/
def splitOnDot : Str → List Str
  | [] => [[]]
  | c :: cs =>
    if c = '.' then [] :: splitOnDot cs
    else
      match splitOnDot cs with
      | [] => [[c]]
      | seg :: rest => (c :: seg) :: rest

/-- `String::find(c, start)`: position of the first occurrence at or after
`start`. -/
def findFrom (c : Char) (s : Str) (start : Nat) : Option Nat :=
  match (s.drop start).findIdx? (fun x => x = c) with
  | some k => some (start + k)
  | none => none

/-- The bracket loop inside `ParseAddress`, over one dot-separated segment:
starting at an opening bracket position, find the closing bracket
(`none` aborts the whole address), read the index with
`FromString<int>(item.substr(i_open + 1, i_close - i_open), -1)` (note the
substring keeps the `]`), reject negatives, and continue at the next `[`.
Each recursion step moves the opening bracket at least two positions right,
so `item.length + 1` fuel never runs out for the calls below. -/
def bracketLoop : Nat → Str → Nat → Option (List AddressEntry)
  | 0, _, _ => none
  | fuel + 1, item, iOpen =>
    match findFrom ']' item (iOpen + 1) with
    | none => none
    | some iClose =>
      let idx := fromStringInt ((item.drop (iOpen + 1)).take (iClose - iOpen)) (-1)
      if idx < 0 then none
      else
        match findFrom '[' item (iClose + 1) with
        | none => some [indexEntry idx]
        | some iOpen' =>
          match bracketLoop fuel item iOpen' with
          | none => none
          | some rest => some (indexEntry idx :: rest)

/-- The per-segment body of `ParseAddress`: empty segments and segments
beginning with `[` abort; otherwise the prefix before the first `[` is the
name entry and the bracket loop supplies the index entries. -/
def segParse (item : Str) : Option (List AddressEntry) :=
  if item = [] then none
  else
    match findFrom '[' item 0 with
    | none => some [nameEntry item]
    | some 0 => none
    | some iOpen =>
      match bracketLoop (item.length + 1) item iOpen with
      | none => none
      | some idxs => some (nameEntry (item.take iOpen) :: idxs)

/-- The segment fold of `ParseAddress`: the first failing segment aborts
the entire address (the function returns `Address()`). -/
def parseSegs : List Str → Option Address
  | [] => some []
  | item :: rest =>
    match segParse item with
    | none => none
    | some es =>
      match parseSegs rest with
      | none => none
      | some tail => some (es ++ tail)

/-- `Data::ParseAddress`. -/
def ParseAddress (s : Str) : Address :=
  (parseSegs (splitOnDot s)).getD []

/-- The scalar leaf types reachable through the bindings the claims use. -/
inductive ScalarTy where
  | bool
  | int
  | float
  | str
deriving DecidableEq

/-- A scalar value in host memory. -/
inductive HostVal where
  | bool (b : Bool)
  | int (i : Int)
  | float (q : Flt)
  | str (s : Str)
deriving DecidableEq

/-- The static type of a host scalar. -/
def HostVal.ty : HostVal → ScalarTy
  | .bool _ => .bool
  | .int _ => .int
  | .float _ => .float
  | .str _ => .str

/-- Host application data reachable from a root binding.  C++ exposes raw
memory through `void*`; the embedding replaces untyped memory with this
tree so that a location can be written as a path from a root. -/
inductive HostData where
  | scalar (v : HostVal)
  | arr (elems : List HostData)
  | strct (fields : List (Str × HostData))

/-- One navigation step of a location (`void*` pointer arithmetic):
a struct member access (`StructMember::GetPointer`) or an array element
access (`&((*ptr)[index])`, which the source performs without validating
the index). -/
inductive Step where
  | member (name : Str)
  | index (i : Int)
deriving DecidableEq

/-- A location in host data: the path from the bound root. -/
abbrev Path := List Step

/-- Association-list lookup (`SmallUnorderedMap::find` by exact name). -/
def findAssoc {α : Type} : List (Str × α) → Str → Option α
  | [], _ => none
  | (n, d) :: rest, nm => if n = nm then some d else findAssoc rest nm

/-- Read the host value at a path; `none` models dereferencing a location
that does not exist (undefined behaviour in the C++). -/
def lookupAt : HostData → Path → Option HostData
  | d, [] => some d
  | .strct fs, .member nm :: p =>
    match findAssoc fs nm with
    | some d => lookupAt d p
    | none => none
  | .arr xs, .index i :: p =>
    if 0 ≤ i then
      match xs[i.toNat]? with
      | some d => lookupAt d p
      | none => none
    else none
  | _, _ => none

/-- Replace an association-list entry. -/
def setAssoc {α : Type} : List (Str × α) → Str → α → List (Str × α)
  | [], _, _ => []
  | (n, d) :: rest, nm, v =>
    if n = nm then (n, v) :: rest else (n, d) :: setAssoc rest nm v

/-- Write the host value at a path; `none` models writing through a
location that does not exist (undefined behaviour in the C++). -/
def setAt : HostData → Path → HostData → Option HostData
  | _, [], v => some v
  | .strct fs, .member nm :: p, v =>
    match findAssoc fs nm with
    | some d =>
      match setAt d p v with
      | some d' => some (.strct (setAssoc fs nm d'))
      | none => none
    | none => none
  | .arr xs, .index i :: p, v =>
    if 0 ≤ i then
      match xs[i.toNat]? with
      | some d =>
        match setAt d p v with
        | some d' => some (.arr (xs.set i.toNat d'))
        | none => none
      | none => none
    else none
  | _, _, _ => none

/-- `Data::VariableType`. -/
inductive VariableType where
  | scalar
  | array
  | strct
deriving DecidableEq

/-- The closed `VariableDefinition` family: `ScalarDefinition<T>` (carrying
its leaf type), `ArrayDefinition<Container>` (carrying the element
definition), `StructDefinition` (carrying the member table built by
`AddMember`). -/
inductive VarDef where
  | scalarDef (ty : ScalarTy)
  | arrayDef (underlying : VarDef)
  | structDef (members : List (Str × VarDef))

/-- `VariableDefinition::Type()`. -/
def VarDef.vtype : VarDef → VariableType
  | .scalarDef _ => .scalar
  | .arrayDef _ => .array
  | .structDef _ => .strct

/-- `Data::Variable`: a (definition, location) handle; `none` is the
default-constructed empty handle (`operator bool` false). -/
abbrev Variable := Option (VarDef × Path)

/-- `ArrayDefinition::Size` at a location (`int(container.size())`); any
non-array content models the undefined behaviour of casting foreign memory
and is read as size 0. -/
def sizeAt (host : HostData) (p : Path) : Int :=
  match lookupAt host p with
  | some (.arr xs) => (xs.length : Int)
  | _ => 0

/-- `VariableDefinition::GetChild` with its three overrides.  The array
case reproduces the source's guard verbatim:
`if (index < 0 && index >= (int)ptr->size())` — the conjunction from the
source, not the disjunction the log message suggests. -/
def getChild (host : HostData) (d : VarDef) (p : Path) (entry : AddressEntry) : Variable :=
  match d with
  | .scalarDef _ => none
  | .arrayDef underlying =>
    let size := sizeAt host p
    let index := entry.index
    if index < 0 ∧ index ≥ size then none
    else some (underlying, p ++ [.index index])
  | .structDef members =>
    if entry.name = [] then none
    else
      match findAssoc members entry.name with
      | none => none
      | some d' => some (d', p ++ [.member entry.name])

/-- The descent loop of `Model::GetVariable(const Address&)`: successive
`GetChild` calls from the root, short-circuiting to the empty handle at
the first failure. -/
def descend (host : HostData) : VarDef × Path → List AddressEntry → Variable
  | v, [] => some v
  | v, e :: es =>
    match getChild host v.1 v.2 e with
    | none => none
    | some v' => descend host v' es

/-- The root-binding table of `Data::Model` (name → Variable). -/
abbrev Bindings := List (Str × (VarDef × Path))

/-- `Model::GetVariable(const Address&)`. -/
def getVariableAddr (vars : Bindings) (host : HostData) (address : Address) : Variable :=
  match address with
  | [] => none
  | front :: rest =>
    if front.name = [] then none
    else
      match findAssoc vars front.name with
      | none => none
      | some v => descend host v rest

/-- `Model::GetVariable(const String&)`: parse, validate the front entry,
resolve. -/
def getVariableStr (vars : Bindings) (host : HostData) (s : Str) : Variable :=
  let address := ParseAddress s
  match address with
  | [] => none
  | front :: rest =>
    if front.name = [] then none
    else
      match findAssoc vars front.name with
      | none => none
      | some v => descend host v rest

/-- The `Variant` carrying a host scalar (`variant = *static_cast<T*>(ptr)`
in `ScalarDefinition::Get`). -/
def toVariant : HostVal → Variant
  | .bool b => .bool b
  | .int i => .int i
  | .float q => .float q
  | .str s => .str s

/-- Modelled from the spec: `Variant::GetInto<T>` conversion (the Variant
class is not in src).  Per the spec, a convertible dynamic value is written
into the typed field and an incompatible one fails, leaving the field
untouched; string→number follows `FromString` (the repository's own test
converts the string "199" into an int field).  `Variant::NONE` converts
into nothing. -/
def convert (v : Variant) (ty : ScalarTy) : Option HostVal :=
  match ty, v with
  | _, .none => none
  | .bool, .bool b => some (.bool b)
  | .bool, .int i => some (.bool (i ≠ 0))
  | .bool, .float q => some (.bool (!q.isZero))
  | .bool, .str s => (parseIntOpt s).map (fun i => .bool (i ≠ 0))
  | .int, .bool b => some (.int (if b then 1 else 0))
  | .int, .int i => some (.int i)
  | .int, .float q => some (.int q.trunc)
  | .int, .str s => (parseIntOpt s).map (fun i => .int i)
  | .float, .bool b => some (.float (if b then 1 else 0))
  | .float, .int i => some (.float ⟨i, 1⟩)
  | .float, .float q => some (.float q)
  | .float, .str s => (parseFloatOpt s).map (fun q => .float q)
  | .str, v => some (.str v.getString)

/-- `Variable::Get` through the definition: `ScalarDefinition::Get` reads
the typed leaf (`none` models reading through a mistyped or dangling
location, undefined behaviour in C++); the base-class fallback for arrays
and structs warns and returns false. -/
def defGet (host : HostData) (d : VarDef) (p : Path) : Option Variant :=
  match d with
  | .scalarDef ty =>
    match lookupAt host p with
    | some (.scalar w) => if w.ty = ty then some (toVariant w) else none
    | _ => none
  | _ => none

/-- `Variable::Set` through the definition: `ScalarDefinition::Set` is
`variant.GetInto<T>(*static_cast<T*>(ptr))` — a failed conversion returns
false and leaves the field unmodified; the base-class fallback for arrays
and structs warns and returns false. -/
def defSet (host : HostData) (d : VarDef) (p : Path) (v : Variant) : Bool × HostData :=
  match d with
  | .scalarDef ty =>
    match convert v ty with
    | none => (false, host)
    | some w =>
      match setAt host p (.scalar w) with
      | some host' => (true, host')
      | none => (false, host)
  | _ => (false, host)

/-- `Model::GetValue(address_str)`: empty `Variant` unless the address
resolves to a scalar whose `Get` succeeds. -/
def getValue (vars : Bindings) (host : HostData) (s : Str) : Variant :=
  match getVariableStr vars host s with
  | none => .none
  | some v =>
    if v.1.vtype ≠ .scalar then .none
    else (defGet host v.1 v.2).getD .none

/-- `Model::SetValue(address_str, variant)`: resolve, require a scalar,
then `Variable::Set`; the host tree is returned alongside the success
flag. -/
def setValue (vars : Bindings) (host : HostData) (s : Str) (v : Variant) : Bool × HostData :=
  match getVariableStr vars host s with
  | none => (false, host)
  | some var =>
    if var.1.vtype ≠ .scalar then (false, host)
    else defSet host var.1 var.2 v

/-! ## The view update engine (`DataView.cpp` / `DataView.h`)

`DataViewFor::Update` manipulates DOM elements and the model's alias table
through external collaborators (`Factory::InstanceElement`, `InsertBefore`,
`RemoveChild`, `DataModel::InsertAlias` / `EraseAliases`).  Elements are
modelled as numeric ids handed out by a counter (`Factory`), and the alias
table as an association list from element id to (alias name, address).
`DataModel::GetVariable` itself is not in src; it is modelled from the
spec by the `Data::Model` resolution above (`getVariableAddr`), which the
spec describes as the same reflection layer. -/

/-- The state of a `DataViewFor`: its resolved address, loop-variable alias
name, and the parallel list of instantiated child elements
(`ElementList elements`); a `none` entry is a null pointer slot. -/
structure ForView where
  variableAddress : Address
  aliasName : Str
  elements : List (Option Nat)
deriving DecidableEq

/-- The external world a `DataViewFor::Update` call touches: the id counter
of the element factory, the model's per-element alias table, and the record
of children removed from the document. -/
structure DomCtx where
  nextId : Nat
  aliases : List (Nat × (Str × Address))
  destroyed : List Nat
deriving DecidableEq

/-- The loop state inside `DataViewFor::Update`: the growing `elements`
vector and the external world. -/
structure ForUpd where
  elements : List (Option Nat)
  ctx : DomCtx
deriving DecidableEq

/-- One iteration `i` of the `for` loop in `DataViewFor::Update`.  `num` is
the `num_elements` captured before the loop and `size` the bound array's
length.  The first branch (`i >= num_elements`) instantiates a child and
registers the alias `variable_address + [i]`; the second (`i >= size`)
erases the child's aliases, removes it from the document, and nulls its
slot. -/
def forBody (addr : Address) (aliasName : Str) (size num : Nat) (i : Nat)
    (s : ForUpd) : ForUpd :=
  let s :=
    if i ≥ num then
      let newId := s.ctx.nextId
      { elements := s.elements ++ [some newId],
        ctx := { s.ctx with
          nextId := newId + 1,
          aliases := s.ctx.aliases ++ [(newId, (aliasName, addr ++ [indexEntry (i : Int)]))] } }
    else s
  if i ≥ size then
    match s.elements.getD i none with
    | some e =>
      { elements := s.elements.set i none,
        ctx := { s.ctx with
          aliases := s.ctx.aliases.filter (fun a => a.1 ≠ e),
          destroyed := s.ctx.destroyed ++ [e] } }
    | none => s
  else s

/-- The loop `for (int i = 0; i < Math::Max(size, num_elements); i++)`,
written with an explicit remaining-iteration count. -/
def forLoop (addr : Address) (aliasName : Str) (size num : Nat) :
    Nat → Nat → ForUpd → ForUpd
  | 0, _, s => s
  | r + 1, i, s => forLoop addr aliasName size num r (i + 1) (forBody addr aliasName size num i s)

/-- `Variable::Size()` through the definition: `ArrayDefinition::Size` is
the container's length; the base-class fallback for scalars and structs
warns and returns 0. -/
def varSize (host : HostData) (v : VarDef × Path) : Nat :=
  match v.1 with
  | .arrayDef _ =>
    match lookupAt host v.2 with
    | some (.arr xs) => xs.length
    | _ => 0
  | _ => 0

/-- `DataViewFor::Update`: resolve the variable (an unresolved handle
returns false without touching anything), run the grow/shrink loop, then
truncate the nulled tail (`elements.resize(size)` when it shrank).  The
local `result` flag is never assigned in the source, so the function
returns false on every path. -/
def updateFor (vars : Bindings) (host : HostData) (view : ForView) (ctx : DomCtx) :
    Bool × ForView × DomCtx :=
  match getVariableAddr vars host view.variableAddress with
  | none => (false, view, ctx)
  | some v =>
    let size := varSize host v
    let num := view.elements.length
    let s := forLoop view.variableAddress view.aliasName size num (max size num) 0 ⟨view.elements, ctx⟩
    let elements := if num > size then s.elements.take size else s.elements
    (false, { view with elements := elements }, s.ctx)

/-- Sorted insertion for `isortBy` (the model of `std::sort`). -/
def insSorted (key : Nat → Nat) (a : Nat) : List Nat → List Nat
  | [] => [a]
  | b :: t => if key a ≤ key b then a :: b :: t else b :: insSorted key a t

/-- Insertion sort by a key; models `std::sort` (the claims only depend on
the result being a key-sorted permutation of the input). -/
def isortBy (key : Nat → Nat) : List Nat → List Nat
  | [] => []
  | a :: t => insSorted key a (isortBy key t)

/-- `std::unique` on a sorted range: drop consecutive duplicates, keeping
the first of each run. -/
def uniqueConsec : List Nat → List Nat
  | [] => []
  | [a] => [a]
  | a :: b :: t =>
    if a = b then uniqueConsec (b :: t) else a :: uniqueConsec (b :: t)

/-- The per-iteration gathering step of `DataViews::Update`: drain the
newly added views, append every view mapped from a dirty name through the
`name_view_map` multimap, then `std::sort` + `std::unique` to remove
duplicate entries.  Views are modelled by their ids (the C++ sorts raw
pointers, here the id itself is the sort key). -/
def gatherDirtyViews (viewsToAdd : List Nat) (nameViewMap : List (Str × Nat))
    (dirtyVariables : List Str) : List Nat :=
  uniqueConsec (isortBy (fun a => a) (viewsToAdd ++
    dirtyVariables.flatMap (fun nm =>
      (nameViewMap.filter (fun e => e.1 = nm)).map (fun e => e.2))))

/-- The final per-iteration schedule of `DataViews::Update`: the gathered
dirty views reordered by ascending element depth (`std::sort` with the
depth comparator); `Update` is then invoked once per entry, in order. -/
def updateSchedule (depth : Nat → Nat) (viewsToAdd : List Nat)
    (nameViewMap : List (Str × Nat)) (dirtyVariables : List Str) : List Nat :=
  isortBy depth (gatherDirtyViews viewsToAdd nameViewMap dirtyVariables)

/-! ## Derived notions used by the claims -/

/-- The effect of one instruction on the tracked stack size: `Push` adds a
slot, `Pop` removes one (failing on an empty count), `Arguments` removes
its payload count (failing when the payload is negative or exceeds the
count); everything else leaves the stack alone. -/
def countStep (ins : InstructionData) (n : Nat) : Option Nat :=
  match ins.instruction with
  | .push => some (n + 1)
  | .pop => if n = 0 then none else some (n - 1)
  | .arguments =>
    let k := ins.data.getInt (-1)
    if 0 ≤ k ∧ k.toNat ≤ n then some (n - k.toNat) else none
  | _ => some n

/-- The static stack count the parser maintains (`program_stack_size`),
recomputed over an emitted program.  `none` marks a program the parser's
emission checks would have refused. -/
def progCount : Program → Nat → Option Nat
  | [], n => some n
  | i :: p, n =>
    match countStep i n with
    | some m => progCount p m
    | none => none

/-- The parser invariant: the tracked `program_stack_size` always equals
the recomputed stack count of the program emitted so far. -/
def PInv (st : PSt) : Prop :=
  ∃ n : Nat, progCount st.program 0 = some n ∧ st.programStackSize = (n : Int)

/-- Sequential `DataModel::EraseAliases` calls for a list of removed
elements, as the shrink loop performs them. -/
def eraseIds (al : List (Nat × (Str × Address))) : List Nat → List (Nat × (Str × Address))
  | [] => al
  | e :: rest => eraseIds (al.filter (fun a => a.1 ≠ e)) rest

/-- Null out `r` consecutive slots starting at `i`, as the shrink loop's
`elements[i] = nullptr` assignments do. -/
def setNoneRange (l : List (Option Nat)) : Nat → Nat → List (Option Nat)
  | _, 0 => l
  | i, r + 1 => setNoneRange (l.set i none) (i + 1) r

/-! ## Spec-side yardsticks

The following definitions are deliberately written from the claims' and the
spec's words, not from the source: they state what a claim asserts so that
a counterexample can compare the source's behaviour against it. -/

/-- Spec-side (§4.2): a character that may appear in an address name. -/
def specNameChar (c : Char) : Bool :=
  !(c = '.' || c = '[' || c = ']')

/-- Spec-side (§4.2): zero or more well-formed numeric `[digits]` groups
ending the segment. -/
def specIndexesOk : Nat → Str → Bool
  | _, [] => true
  | 0, _ => false
  | fuel + 1, s =>
    match s with
    | '[' :: rest =>
      let (_, k, rest') := readDigits rest 0
      if k = 0 then false
      else
        match rest' with
        | ']' :: rest'' => specIndexesOk fuel rest''
        | _ => false
    | _ => false

/-- Spec-side (§4.2): `segment := name index*` with a nonempty name. -/
def specSegmentOk (s : Str) : Bool :=
  let name := s.takeWhile specNameChar
  !name.isEmpty && specIndexesOk (s.length + 1) (s.drop name.length)

/-- Spec-side (§4.2): `address := segment ('.' segment)*`. -/
def specAddressOk (s : Str) : Bool :=
  (splitOnDot s).all specSegmentOk

/-- Spec-side: lexical string comparison, which the claim asserts the
relational operators perform when an operand is a string. -/
def specLexicalLess : Str → Str → Bool
  | [], [] => false
  | [], _ :: _ => true
  | _ :: _, [] => false
  | a :: as, b :: bs =>
    if a < b then true else if b < a then false else specLexicalLess as bs

/-- The five-instruction shape the compiler emits for one binary operator
applied to two literals: `Literal v1; Push; Literal v2; Pop L; op`. -/
def binProg (op : Instruction) (v1 v2 : Variant) : Program :=
  [⟨.literal, v1⟩, ⟨.push, .none⟩, ⟨.literal, v2⟩, ⟨.pop, .int 1⟩, ⟨op, .none⟩]

/-- Spec-side: the program the claimed precedence would emit for
`1==1+1`, grouping it as `1 == (1+1)`. -/
def specGroupedProgram : Program :=
  [⟨.literal, .float 1⟩, ⟨.push, .none⟩, ⟨.literal, .float 1⟩, ⟨.push, .none⟩,
   ⟨.literal, .float 1⟩, ⟨.pop, .int 1⟩, ⟨.add, .none⟩, ⟨.pop, .int 1⟩, ⟨.equal, .none⟩]

/-! ## Concrete instances used by counterexamples and witnesses -/

/-- The parser state after compiling `1==1+1`. -/
def c3St : PSt :=
  parseWith 64 ['1', '=', '=', '1', '+', '1']

/-- The parser state after compiling `2*3+4`. -/
def c3MulAdd : PSt :=
  parseWith 64 ['2', '*', '3', '+', '4']

/-- The parser state after compiling `1+2*3`. -/
def c3AddMul : PSt :=
  parseWith 64 ['1', '+', '2', '*', '3']

/-- The parser state after compiling `true||false&&false`. -/
def c3OrAnd : PSt :=
  parseWith 64 ['t', 'r', 'u', 'e', '|', '|', 'f', 'a', 'l', 's', 'e',
    '&', '&', 'f', 'a', 'l', 's', 'e']

/-- A host struct with one int field `x`, bound under the root `data`. -/
def c5Host : HostData :=
  .strct [(['x'], .scalar (.int 5))]

/-- The root-binding table for `c5Host`. -/
def c5Vars : Bindings :=
  [(['d', 'a', 't', 'a'], (.structDef [(['x'], .scalarDef .int)], []))]

/-- The address string `data.x`. -/
def c5Addr : Str :=
  ['d', 'a', 't', 'a', '.', 'x']

/-- A For-view with no instantiated children bound to root `xs`. -/
def c8View : ForView :=
  ⟨[nameEntry ['x', 's']], ['i', 't'], []⟩

/-- Root bindings for `c8View`: `xs` is an int array at the host root. -/
def c8Vars : Bindings :=
  [(['x', 's'], (.arrayDef (.scalarDef .int), []))]

/-- A one-element host array for `c8View`. -/
def c8Host : HostData :=
  .arr [.scalar (.int 7)]

/-- A three-children For-view bound to root `xs`, for the 3→5 growth
witness. -/
def c7View : ForView :=
  ⟨[nameEntry ['x', 's']], ['i', 't'], [some 0, some 1, some 2]⟩

/-- A five-element host array for the 3→5 growth witness. -/
def c7Host : HostData :=
  .arr [.scalar (.int 1), .scalar (.int 2), .scalar (.int 3),
    .scalar (.int 4), .scalar (.int 5)]

/-! ## Shared lemmas -/

/-- An array's size is never negative. -/
theorem sizeAt_nonneg (host : HostData) (p : Path) : 0 ≤ sizeAt host p := by
  unfold sizeAt
  cases lookupAt host p with
  | none => simp
  | some d => cases d <;> simp

/-- The source's bounds guard `index < 0 && index >= size` is unsatisfiable,
so `GetChild` on an array definition always descends, for any index. -/
theorem getChild_arrayDef (host : HostData) (u : VarDef) (p : Path) (e : AddressEntry) :
    getChild host (.arrayDef u) p e = some (u, p ++ [Step.index e.index]) := by
  have h := sizeAt_nonneg host p
  show (if e.index < 0 ∧ e.index ≥ sizeAt host p then none
    else some (u, p ++ [Step.index e.index])) = _
  rw [if_neg (by omega)]

/-- A successfully parsed address segment contributes at least its name
entry. -/
theorem segParse_ne_nil {item : Str} {es : List AddressEntry}
    (h : segParse item = some es) : es ≠ [] := by
  unfold segParse at h
  split at h
  · cases h
  · split at h
    · cases h; simp
    · cases h
    · split at h
      · cases h
      · cases h; simp

/-- The segment fold fails exactly when some segment fails. -/
theorem parseSegs_eq_none_iff (l : List Str) :
    parseSegs l = none ↔ ∃ item ∈ l, segParse item = none := by
  induction l with
  | nil => simp [parseSegs]
  | cons a t ih =>
    simp only [parseSegs]
    cases ha : segParse a with
    | none =>
      exact ⟨fun _ => ⟨a, by simp, ha⟩, fun _ => rfl⟩
    | some es =>
      cases ht : parseSegs t with
      | none =>
        constructor
        · intro _
          obtain ⟨item, hm, hn⟩ := ih.mp ht
          exact ⟨item, List.mem_cons_of_mem _ hm, hn⟩
        · intro _; rfl
      | some tail =>
        constructor
        · intro h; cases h
        · rintro ⟨item, hm, hn⟩
          rcases List.mem_cons.mp hm with rfl | hm
          · rw [ha] at hn; cases hn
          · have h2 := ih.mpr ⟨item, hm, hn⟩
            rw [ht] at h2; cases h2

/-- Splitting a string at dots never yields the empty list. -/
theorem splitOnDot_ne_nil (s : Str) : splitOnDot s ≠ [] := by
  cases s with
  | nil => simp [splitOnDot]
  | cons c cs =>
    simp only [splitOnDot]
    split
    · simp
    · split <;> simp

/-- A successfully parsed address is never empty. -/
theorem parseSegs_some_ne_nil {s : Str} {a : Address}
    (h : parseSegs (splitOnDot s) = some a) : a ≠ [] := by
  cases hs : splitOnDot s with
  | nil => exact absurd hs (splitOnDot_ne_nil s)
  | cons seg rest =>
    rw [hs] at h
    simp only [parseSegs] at h
    cases hseg : segParse seg with
    | none => rw [hseg] at h; cases h
    | some es =>
      rw [hseg] at h
      cases hrest : parseSegs rest with
      | none => rw [hrest] at h; cases h
      | some tail =>
        rw [hrest] at h
        cases h
        have := segParse_ne_nil hseg
        simp [this]

/-- Setting an existing index keeps it readable with the new value. -/
theorem get?_set_self {α : Type} (xs : List α) (n : Nat) (a b : α)
    (h : xs[n]? = some b) : (xs.set n a)[n]? = some a := by
  induction xs generalizing n with
  | nil => simp at h
  | cons x t ih =>
    cases n with
    | zero => simp
    | succ n =>
      simp only [List.set_cons_succ, List.getElem?_cons_succ] at h ⊢
      exact ih n h

/-- Replacing an existing association keeps it findable with the new
value. -/
theorem findAssoc_setAssoc {α : Type} (l : List (Str × α)) (nm : Str) (v w : α)
    (h : findAssoc l nm = some w) : findAssoc (setAssoc l nm v) nm = some v := by
  induction l with
  | nil => simp [findAssoc] at h
  | cons x t ih =>
    obtain ⟨n, d⟩ := x
    by_cases hn : n = nm
    · simp [findAssoc, setAssoc, hn]
    · simp only [findAssoc, setAssoc, if_neg hn] at h ⊢
      exact ih h

/-- A location that can be read can be written, and reads back the written
value. -/
theorem lookupAt_setAt (p : Path) :
    ∀ (host v d0 : HostData), lookupAt host p = some d0 →
      ∃ h', setAt host p v = some h' ∧ lookupAt h' p = some v := by
  induction p with
  | nil =>
    intro host v d0 _
    exact ⟨v, by cases host <;> rfl, by cases v <;> rfl⟩
  | cons stp t ih =>
    intro host v d0 h
    cases stp with
    | member nm =>
      cases host with
      | scalar w => simp [lookupAt] at h
      | arr xs => simp [lookupAt] at h
      | strct fs =>
        cases hf : findAssoc fs nm with
        | none => simp [lookupAt, hf] at h
        | some d =>
          simp only [lookupAt, hf] at h
          obtain ⟨d', hset, hlook⟩ := ih d v d0 h
          refine ⟨.strct (setAssoc fs nm d'), ?_, ?_⟩
          · simp [setAt, hf, hset]
          · simp [lookupAt, findAssoc_setAssoc fs nm d' d hf, hlook]
    | index i =>
      cases host with
      | scalar w => simp [lookupAt] at h
      | strct fs => simp [lookupAt] at h
      | arr xs =>
        by_cases hi : 0 ≤ i
        · simp only [lookupAt, if_pos hi] at h
          cases hg : xs[i.toNat]? with
          | none => rw [hg] at h; cases h
          | some d =>
            rw [hg] at h
            obtain ⟨d', hset, hlook⟩ := ih d v d0 h
            refine ⟨.arr (xs.set i.toNat d'), ?_, ?_⟩
            · simp [setAt, if_pos hi, hg, hset]
            · simp [lookupAt, if_pos hi, get?_set_self xs i.toNat d' d hg, hlook]
        · simp [lookupAt, hi] at h

/-- `GetChild` never depends on the host data: the struct case reads only
the definition's member table, and the dead bounds guard makes the array
size irrelevant. -/
theorem getChild_host_irrel (h1 h2 : HostData) (d : VarDef) (p : Path)
    (e : AddressEntry) : getChild h1 d p e = getChild h2 d p e := by
  cases d with
  | scalarDef ty => rfl
  | arrayDef u => rw [getChild_arrayDef, getChild_arrayDef]
  | structDef ms => rfl

/-- Address descent never depends on the host data. -/
theorem descend_host_irrel (h1 h2 : HostData) (v : VarDef × Path)
    (es : List AddressEntry) : descend h1 v es = descend h2 v es := by
  induction es generalizing v with
  | nil => rfl
  | cons e t ih =>
    simp only [descend]
    rw [getChild_host_irrel h1 h2]
    cases getChild h2 v.1 v.2 e with
    | none => rfl
    | some v' => exact ih v'

/-- String-address resolution never depends on the host data. -/
theorem getVariableStr_host_irrel (vars : Bindings) (h1 h2 : HostData)
    (s : Str) : getVariableStr vars h1 s = getVariableStr vars h2 s := by
  unfold getVariableStr
  cases ParseAddress s with
  | nil => rfl
  | cons front rest =>
    by_cases hn : front.name = []
    · simp [hn]
    · simp only [if_neg hn]
      cases findAssoc vars front.name with
      | none => rfl
      | some v => exact descend_host_irrel h1 h2 v rest

/-- A successful conversion produces a value of the target scalar type. -/
theorem convert_ty (v : Variant) (ty : ScalarTy) (w : HostVal)
    (h : convert v ty = some w) : w.ty = ty := by
  cases ty <;> cases v <;>
    simp only [convert, Option.map_eq_some'] at h <;>
    first
      | (cases h <;> rfl)
      | (obtain ⟨i, _, rfl⟩ := h; rfl)

/-- Sorted insertion preserves multiplicities. -/
theorem insSorted_count (key : Nat → Nat) (a : Nat) (l : List Nat) (x : Nat) :
    (insSorted key a l).count x = (a :: l).count x := by
  induction l with
  | nil => rfl
  | cons b t ih =>
    simp only [insSorted]
    split
    · rfl
    · simp only [List.count_cons, ih]
      omega

/-- Sorted insertion preserves membership. -/
theorem insSorted_mem (key : Nat → Nat) (a : Nat) (l : List Nat) (x : Nat) :
    x ∈ insSorted key a l ↔ x ∈ a :: l := by
  induction l with
  | nil => exact Iff.rfl
  | cons b t ih =>
    simp only [insSorted]
    split
    · exact Iff.rfl
    · simp only [List.mem_cons] at ih ⊢
      rw [ih]
      tauto

/-- Sorted insertion preserves key-sortedness. -/
theorem insSorted_pairwise (key : Nat → Nat) (a : Nat) (l : List Nat)
    (h : l.Pairwise (fun x y => key x ≤ key y)) :
    (insSorted key a l).Pairwise (fun x y => key x ≤ key y) := by
  induction l with
  | nil => simp [insSorted]
  | cons b t ih =>
    rw [List.pairwise_cons] at h
    obtain ⟨hb, ht⟩ := h
    simp only [insSorted]
    split
    · next hab =>
      refine List.pairwise_cons.mpr ⟨?_, List.pairwise_cons.mpr ⟨hb, ht⟩⟩
      intro y hy
      rcases List.mem_cons.mp hy with rfl | hy
      · exact hab
      · exact le_trans hab (hb y hy)
    · next hab =>
      refine List.pairwise_cons.mpr ⟨?_, ih ht⟩
      intro y hy
      rcases List.mem_cons.mp ((insSorted_mem key a t y).mp hy) with rfl | h1
      · exact le_of_not_le hab
      · exact hb y h1

/-- Insertion sort preserves multiplicities. -/
theorem isortBy_count (key : Nat → Nat) (l : List Nat) (x : Nat) :
    (isortBy key l).count x = l.count x := by
  induction l with
  | nil => rfl
  | cons a t ih =>
    simp only [isortBy]
    rw [insSorted_count]
    simp [List.count_cons, ih]

/-- Insertion sort preserves membership. -/
theorem isortBy_mem (key : Nat → Nat) (l : List Nat) (x : Nat) :
    x ∈ isortBy key l ↔ x ∈ l := by
  induction l with
  | nil => exact Iff.rfl
  | cons a t ih =>
    simp only [isortBy]
    rw [insSorted_mem]
    simp [ih]

/-- Insertion sort sorts by the key. -/
theorem isortBy_pairwise (key : Nat → Nat) (l : List Nat) :
    (isortBy key l).Pairwise (fun x y => key x ≤ key y) := by
  induction l with
  | nil => simp [isortBy]
  | cons a t ih => exact insSorted_pairwise key a _ ih

/-- `std::unique` preserves membership. -/
theorem uniqueConsec_mem (l : List Nat) (x : Nat) :
    x ∈ uniqueConsec l ↔ x ∈ l := by
  induction l with
  | nil => exact Iff.rfl
  | cons a t ih =>
    cases t with
    | nil => exact Iff.rfl
    | cons b t2 =>
      simp only [uniqueConsec]
      split
      · next hab =>
        subst hab
        rw [ih]
        simp only [List.mem_cons]
        tauto
      · simp only [List.mem_cons] at ih ⊢
        rw [ih]

/-- `std::unique` on a `≤`-sorted list removes all duplicates. -/
theorem uniqueConsec_nodup (l : List Nat) (h : l.Pairwise (fun x y => x ≤ y)) :
    (uniqueConsec l).Nodup := by
  induction l with
  | nil => simp [uniqueConsec]
  | cons a t ih =>
    cases t with
    | nil => simp [uniqueConsec]
    | cons b t2 =>
      rw [List.pairwise_cons] at h
      obtain ⟨ha, hbt⟩ := h
      simp only [uniqueConsec]
      split
      · exact ih hbt
      · next hab =>
        refine List.nodup_cons.mpr ⟨?_, ih hbt⟩
        intro hmem
        have hm : a ∈ b :: t2 := (uniqueConsec_mem _ _).mp hmem
        rcases List.mem_cons.mp hm with rfl | hm
        · exact hab rfl
        · have h1 : a ≤ b := ha b (by simp)
          have h2 : b ≤ a := (List.pairwise_cons.mp hbt).1 a hm
          exact hab (le_antisymm h1 h2)

/-- The For-view loop splits into consecutive phases. -/
theorem forLoop_add (addr : Address) (al : Str) (size num r1 r2 : Nat) :
    ∀ (i : Nat) (s : ForUpd),
      forLoop addr al size num (r1 + r2) i s =
        forLoop addr al size num r2 (i + r1) (forLoop addr al size num r1 i s) := by
  induction r1 with
  | zero =>
    intro i s
    rw [Nat.zero_add, Nat.add_zero]
    rfl
  | succ r ih =>
    intro i s
    have h1 : r + 1 + r2 = (r + r2) + 1 := by omega
    rw [h1]
    simp only [forLoop]
    rw [ih (i + 1) (forBody addr al size num i s)]
    have h2 : i + 1 + r = i + (r + 1) := by omega
    rw [h2]

/-- Iterations with `i < num` and `i < size` change nothing. -/
theorem forLoop_id (addr : Address) (al : Str) (size num : Nat) :
    ∀ (r i : Nat) (s : ForUpd), i + r ≤ num → i + r ≤ size →
      forLoop addr al size num r i s = s := by
  intro r
  induction r with
  | zero => intro i s _ _; rfl
  | succ r ih =>
    intro i s h1 h2
    simp only [forLoop]
    have hb : forBody addr al size num i s = s := by
      simp only [forBody]
      rw [if_neg (by omega), if_neg (by omega)]
    rw [hb]
    exact ih (i + 1) s (by omega) (by omega)

/-- As long as `i` stays below the captured `num`, iterations never change
the element count (only `elements[i] = nullptr` writes happen). -/
theorem forLoop_len_nogrow (addr : Address) (al : Str) (size num : Nat) :
    ∀ (r i : Nat) (s : ForUpd), i + r ≤ num →
      (forLoop addr al size num r i s).elements.length = s.elements.length := by
  intro r
  induction r with
  | zero => intro i s _; rfl
  | succ r ih =>
    intro i s h1
    simp only [forLoop]
    rw [ih (i + 1) _ (by omega)]
    simp only [forBody]
    rw [if_neg (show ¬i ≥ num by omega)]
    split
    · split
      · simp [List.length_set]
      · rfl
    · rfl

/-- The growth phase: starting at `i ≥ num` and staying below `size`, each
iteration instantiates one fresh trailing child and registers its alias
`variable_address + [index]`; nothing is destroyed. -/
theorem forLoop_grow (addr : Address) (al : Str) (size num : Nat) :
    ∀ (r i : Nat) (s : ForUpd), num ≤ i → i + r ≤ size →
      forLoop addr al size num r i s =
        ⟨s.elements ++ (List.range r).map (fun j => some (s.ctx.nextId + j)),
         ⟨s.ctx.nextId + r,
          s.ctx.aliases ++ (List.range r).map (fun j =>
            (s.ctx.nextId + j, (al, addr ++ [indexEntry ((i + j : Nat) : Int)]))),
          s.ctx.destroyed⟩⟩ := by
  intro r
  induction r with
  | zero =>
    intro i s _ _
    simp [forLoop]
  | succ r ih =>
    intro i s hn hs
    rw [forLoop_add addr al size num r 1 i s, ih i s hn (by omega)]
    simp only [forLoop]
    have hb : forBody addr al size num (i + r)
        ⟨s.elements ++ (List.range r).map (fun j => some (s.ctx.nextId + j)),
         ⟨s.ctx.nextId + r,
          s.ctx.aliases ++ (List.range r).map (fun j =>
            (s.ctx.nextId + j, (al, addr ++ [indexEntry ((i + j : Nat) : Int)]))),
          s.ctx.destroyed⟩⟩ =
        ⟨(s.elements ++ (List.range r).map (fun j => some (s.ctx.nextId + j)))
            ++ [some (s.ctx.nextId + r)],
         ⟨s.ctx.nextId + r + 1,
          (s.ctx.aliases ++ (List.range r).map (fun j =>
            (s.ctx.nextId + j, (al, addr ++ [indexEntry ((i + j : Nat) : Int)]))))
            ++ [(s.ctx.nextId + r, (al, addr ++ [indexEntry ((i + r : Nat) : Int)]))],
          s.ctx.destroyed⟩⟩ := by
      simp only [forBody]
      rw [if_neg (show ¬i + r ≥ size by omega), if_pos (show i + r ≥ num by omega)]
    rw [hb]
    rw [List.range_succ, List.map_append, List.map_append]
    simp only [List.map_cons, List.map_nil, List.append_assoc]
    rfl

/-- Setting at or beyond the taken prefix leaves the prefix unchanged. -/
theorem take_set_le {α : Type} :
    ∀ (l : List α) (n m : Nat) (a : α), m ≤ n → (l.set n a).take m = l.take m := by
  intro l
  induction l with
  | nil => intros; simp
  | cons x t ih =>
    intro n m a h
    cases n with
    | zero =>
      have : m = 0 := by omega
      subst this
      simp
    | succ n =>
      cases m with
      | zero => simp
      | succ m =>
        simp only [List.set_cons_succ, List.take_succ_cons]
        rw [ih n m a (by omega)]

/-- Nulling a range of slots preserves the length. -/
theorem length_setNoneRange :
    ∀ (r i : Nat) (l : List (Option Nat)), (setNoneRange l i r).length = l.length := by
  intro r
  induction r with
  | zero => intros; rfl
  | succ r ih =>
    intro i l
    simp only [setNoneRange]
    rw [ih (i + 1)]
    simp

/-- Nulling slots at or after position `j` leaves the first `j` slots
unchanged. -/
theorem take_setNoneRange (j : Nat) :
    ∀ (r i : Nat) (l : List (Option Nat)), j ≤ i →
      (setNoneRange l i r).take j = l.take j := by
  intro r
  induction r with
  | zero => intros; rfl
  | succ r ih =>
    intro i l hj
    simp only [setNoneRange]
    rw [ih (i + 1) _ (by omega), take_set_le l i j none hj]

/-- The shrink phase: starting at `i ≥ size` and staying below the captured
`num`, each iteration erases the aliases of the child in slot `i`, removes
it from the document, and nulls its slot; nothing is instantiated and the
id counter does not move. -/
theorem forLoop_shrink (addr : Address) (al : Str) (size num : Nat) :
    ∀ (r i : Nat) (s : ForUpd) (ids : List Nat), size ≤ i → i + r ≤ num →
      i + r ≤ s.elements.length →
      (s.elements.drop i).take r = ids.map some →
      forLoop addr al size num r i s =
        ⟨setNoneRange s.elements i r,
         ⟨s.ctx.nextId, eraseIds s.ctx.aliases ids, s.ctx.destroyed ++ ids⟩⟩ := by
  intro r
  induction r with
  | zero =>
    intro i s ids _ _ _ h4
    have hids : ids = [] := by
      cases ids with
      | nil => rfl
      | cons x t => simp at h4
    subst hids
    simp [forLoop, setNoneRange, eraseIds]
  | succ r ih =>
    intro i s ids h1 h2 h3 h4
    cases hd : s.elements.drop i with
    | nil =>
      exfalso
      have hlen := congrArg List.length hd
      simp only [List.length_drop, List.length_nil] at hlen
      omega
    | cons x rest =>
      rw [hd] at h4
      simp only [List.take_succ_cons] at h4
      cases ids with
      | nil => simp at h4
      | cons e ids' =>
        simp only [List.map_cons] at h4
        injection h4 with hx h4'
        subst hx
        have hget : s.elements[i]? = some (some e) := by
          have hdg := List.getElem?_drop s.elements i 0
          rw [hd] at hdg
          simpa using hdg.symm
        have hgetD : s.elements.getD i none = some e := by
          simp [List.getD_eq_getElem?_getD, hget]
        simp only [forLoop]
        have hb : forBody addr al size num i s =
            ⟨s.elements.set i none,
             ⟨s.ctx.nextId, s.ctx.aliases.filter (fun a => a.1 ≠ e),
              s.ctx.destroyed ++ [e]⟩⟩ := by
          simp only [forBody]
          rw [if_pos (show i ≥ size by omega), if_neg (show ¬i ≥ num by omega),
            hgetD]
        rw [hb]
        have hdrop : ((s.elements.set i none).drop (i + 1)).take r = ids'.map some := by
          rw [List.drop_set_of_lt _ _ (by omega), ← List.tail_drop, hd]
          simpa using h4'
        rw [ih (i + 1) _ ids' (by omega) (by omega)
          (by simp only [List.length_set]; omega) hdrop]
        simp only [setNoneRange, eraseIds, List.append_assoc, List.cons_append,
          List.nil_append]

/-- `progCount` distributes over program concatenation. -/
theorem progCount_append (p q : Program) :
    ∀ n, progCount (p ++ q) n =
      match progCount p n with
      | some m => progCount q m
      | none => none := by
  induction p with
  | nil => intro n; rfl
  | cons i t ih =>
    intro n
    simp only [List.cons_append, progCount]
    cases countStep i n with
    | none => rfl
    | some m => exact ih m

/-- Transport the parser invariant along equal program and counter. -/
theorem PInv_of_eq {st st' : PSt} (hp : st'.program = st.program)
    (hs : st'.programStackSize = st.programStackSize) (h : PInv st) : PInv st' := by
  obtain ⟨n, h1, h2⟩ := h
  exact ⟨n, by rw [hp]; exact h1, by rw [hs]; exact h2⟩

/-- `Error` changes only the error flag. -/
theorem PInv_perror {st : PSt} (h : PInv st) : PInv (perror st) := h

/-- `Next` changes only the scan position. -/
theorem PInv_next {st : PSt} (h : PInv st) : PInv (next st) := h

/-- The whitespace loop changes only the scan position. -/
theorem skipWSAux_state : ∀ (f : Nat) (st : PSt),
    (skipWSAux f st).program = st.program ∧
    (skipWSAux f st).programStackSize = st.programStackSize := by
  intro f
  induction f with
  | zero => intro st; exact ⟨rfl, rfl⟩
  | succ f ih =>
    intro st
    simp only [skipWSAux]
    split
    · exact ih (next st)
    · exact ⟨rfl, rfl⟩

/-- `SkipWhitespace` preserves the invariant. -/
theorem PInv_skipWhitespace {st : PSt} (h : PInv st) : PInv (skipWhitespace st) :=
  PInv_of_eq (skipWSAux_state _ st).1 (skipWSAux_state _ st).2 h

/-- `Match` preserves the invariant. -/
theorem PInv_matchC {st : PSt} (c : Char) (skipWs : Bool) (h : PInv st) :
    PInv (matchC c skipWs st) := by
  unfold matchC
  split
  · split
    · exact PInv_skipWhitespace h
    · exact h
  · exact h

/-- `Emit` of a non-stack instruction preserves the invariant. -/
theorem PInv_emit {st : PSt} (ins : Instruction) (d : Variant)
    (hne : ins ≠ .push ∧ ins ≠ .pop ∧ ins ≠ .arguments) (h : PInv st) :
    PInv (emit st ins d) := by
  obtain ⟨n, h1, h2⟩ := h
  refine ⟨n, ?_, h2⟩
  show progCount (st.program ++ [⟨ins, d⟩]) 0 = some n
  rw [progCount_append, h1]
  show progCount [⟨ins, d⟩] n = some n
  cases ins
  case push => exact absurd rfl hne.1
  case pop => exact absurd rfl hne.2.1
  case arguments => exact absurd rfl hne.2.2
  all_goals rfl

/-- `Push` emission preserves the invariant. -/
theorem PInv_pushE {st : PSt} (h : PInv st) : PInv (pushE st) := by
  obtain ⟨n, h1, h2⟩ := h
  refine ⟨n + 1, ?_, ?_⟩
  · show progCount (st.program ++ [⟨.push, .none⟩]) 0 = some (n + 1)
    rw [progCount_append, h1]
    rfl
  · show st.programStackSize + 1 = ((n + 1 : Nat) : Int)
    omega

/-- `Pop` emission preserves the invariant: it refuses to emit on an empty
tracked stack. -/
theorem PInv_popE {st : PSt} (r : Register) (h : PInv st) : PInv (popE st r) := by
  obtain ⟨n, h1, h2⟩ := h
  unfold popE
  split
  · exact ⟨n, h1, h2⟩
  · next hgt =>
    refine ⟨n - 1, ?_, ?_⟩
    · show progCount (st.program ++ [⟨.pop, .int r.encode⟩]) 0 = some (n - 1)
      rw [progCount_append, h1]
      have hn : n ≠ 0 := by omega
      simp [progCount, countStep, hn]
    · show st.programStackSize - 1 = ((n - 1 : Nat) : Int)
      omega

/-- `Arguments` emission with a non-negative count preserves the
invariant: it refuses to emit when the tracked stack is too small. -/
theorem PInv_argumentsE {st : PSt} (k : Int) (hk : 0 ≤ k) (h : PInv st) :
    PInv (argumentsE st k) := by
  obtain ⟨n, h1, h2⟩ := h
  unfold argumentsE
  split
  · exact ⟨n, h1, h2⟩
  · next hge =>
    refine ⟨n - k.toNat, ?_, ?_⟩
    · show progCount (st.program ++ [⟨.arguments, .int k⟩]) 0 = some (n - k.toNat)
      rw [progCount_append, h1]
      have hc : 0 ≤ k ∧ k.toNat ≤ n := ⟨hk, by omega⟩
      simp [progCount, countStep, Variant.getInt, hc]
    · show st.programStackSize - k = ((n - k.toNat : Nat) : Int)
      omega

/-- The string-literal scanning loop changes only the scan position. -/
theorem stringLitAux_state : ∀ (f : Nat) (acc : Str) (esc : Bool) (st : PSt),
    (stringLitAux f acc esc st).2.program = st.program ∧
    (stringLitAux f acc esc st).2.programStackSize = st.programStackSize := by
  intro f
  induction f with
  | zero => intro acc esc st; exact ⟨rfl, rfl⟩
  | succ f ih =>
    intro acc esc st
    simp only [stringLitAux]
    split
    · exact ih _ _ (next st)
    · exact ⟨rfl, rfl⟩

/-- `StringLiteral` preserves the invariant. -/
theorem PInv_stringLiteral {st : PSt} (h : PInv st) : PInv (stringLiteral st) := by
  unfold stringLiteral
  dsimp only
  exact PInv_emit _ _ ⟨by simp, by simp, by simp⟩
    (PInv_of_eq (stringLitAux_state _ _ _ st).1 (stringLitAux_state _ _ _ st).2 h)

/-- The number-literal scanning loop changes only the scan position. -/
theorem numberLitAux_state : ∀ (f : Nat) (acc : Str) (fm hd : Bool) (st : PSt),
    (numberLitAux f acc fm hd st).2.2.program = st.program ∧
    (numberLitAux f acc fm hd st).2.2.programStackSize = st.programStackSize := by
  intro f
  induction f with
  | zero => intro acc fm hd st; exact ⟨rfl, rfl⟩
  | succ f ih =>
    intro acc fm hd st
    simp only [numberLitAux]
    split
    · exact ih _ _ _ (next st)
    · exact ⟨rfl, rfl⟩

/-- `NumberLiteral` preserves the invariant. -/
theorem PInv_numberLiteral {st : PSt} (h : PInv st) : PInv (numberLiteral st) := by
  unfold numberLiteral
  dsimp only
  split
  · have h3 : PInv (numberLitAux ((next st).expr.length + 1) ['-'] false false
        (next st)).2.2 :=
      PInv_of_eq (numberLitAux_state _ _ _ _ _).1 (numberLitAux_state _ _ _ _ _).2
        (PInv_next h)
    dsimp only
    split
    · exact PInv_perror h3
    · exact PInv_emit _ _ ⟨by simp, by simp, by simp⟩ h3
  · have h3 : PInv (numberLitAux (st.expr.length + 1) [] false false st).2.2 :=
      PInv_of_eq (numberLitAux_state _ _ _ _ _).1 (numberLitAux_state _ _ _ _ _).2 h
    dsimp only
    split
    · exact PInv_perror h3
    · exact PInv_emit _ _ ⟨by simp, by simp, by simp⟩ h3

/-- The variable-name scanning loop changes only the scan position. -/
theorem varNameAux_state : ∀ (f : Nat) (acc : Str) (fst : Bool) (st : PSt),
    (varNameAux f acc fst st).2.program = st.program ∧
    (varNameAux f acc fst st).2.programStackSize = st.programStackSize := by
  intro f
  induction f with
  | zero => intro acc fst st; exact ⟨rfl, rfl⟩
  | succ f ih =>
    intro acc fst st
    simp only [varNameAux]
    split
    · exact ih _ _ (next st)
    · exact ⟨rfl, rfl⟩

/-- `VariableName` changes only the scan position. -/
theorem PInv_variableName {st : PSt} (h : PInv st) : PInv (variableName st).2 := by
  unfold variableName
  exact PInv_of_eq (varNameAux_state _ _ _ st).1 (varNameAux_state _ _ _ st).2 h

/-- `DoVariable` preserves the invariant. -/
theorem PInv_doVariable {st : PSt} (h : PInv st) : PInv (doVariable st) := by
  unfold doVariable
  dsimp only
  split
  · exact PInv_perror (PInv_variableName h)
  · split
    · exact PInv_emit _ _ ⟨by simp, by simp, by simp⟩ (PInv_variableName h)
    · split
      · exact PInv_emit _ _ ⟨by simp, by simp, by simp⟩ (PInv_variableName h)
      · exact PInv_emit _ _ ⟨by simp, by simp, by simp⟩ (PInv_variableName h)

/-- The `Function` epilogue preserves the invariant. -/
theorem PInv_funcFinish {st : PSt} (name : Str) (num : Nat) (h : PInv st) :
    PInv (funcFinish name num st) := by
  unfold funcFinish
  split
  · exact PInv_emit _ _ ⟨by simp, by simp, by simp⟩
      (PInv_popE _ (PInv_argumentsE _ (by exact_mod_cast Nat.zero_le num) h))
  · exact PInv_emit _ _ ⟨by simp, by simp, by simp⟩ h

set_option maxHeartbeats 1600000 in
/-- The compiler invariant: every parse procedure keeps the tracked
`program_stack_size` equal to the recomputed stack count of the program
emitted so far. -/
theorem PInv_enter : ∀ (fuel : Nat) (ty : PTy) (st : PSt),
    PInv st → PInv (enter fuel ty st) := by
  intro fuel
  induction fuel with
  | zero => intro ty st h; exact PInv_perror h
  | succ f ih =>
    intro ty st h
    cases ty with
    | expression => exact ih .exprLoop _ (ih .term _ h)
    | exprLoop =>
      simp only [enter]
      split
      · exact ih _ _ (ih _ _ h)
      · split
        · exact ih _ _ (ih _ _ h)
        · split
          · exact ih _ _ (ih _ _ h)
          · split
            · split
              · exact ih _ _ (ih _ _ (PInv_matchC _ _ h))
              · exact ih _ _ (ih _ _ (PInv_skipWhitespace (PInv_matchC _ _ h)))
            · split
              · exact ih _ _ (ih _ _ h)
              · split
                · exact ih _ _ (ih _ _ h)
                · split
                  · exact ih _ _ (ih _ _ h)
                  · split
                    · exact ih _ _ (ih _ _ h)
                    · split
                      · exact ih _ _ (ih _ _ h)
                      · split
                        · exact h
                        · exact h
    | term => exact ih .termLoop _ (ih .factor _ h)
    | termLoop =>
      simp only [enter]
      split
      · exact ih _ _ (ih _ _ h)
      · split
        · exact ih _ _ (ih _ _ h)
        · exact h
    | factor =>
      simp only [enter]
      split
      · exact PInv_matchC _ _ (ih _ _ (PInv_matchC _ _ h))
      · split
        · exact PInv_matchC _ _ (ih _ _ (PInv_matchC _ _ h))
        · split
          · exact PInv_skipWhitespace (ih _ _ h)
          · split
            · exact PInv_skipWhitespace (ih _ _ h)
            · split
              · exact PInv_skipWhitespace (ih _ _ h)
              · exact PInv_perror h
    | stringLit => exact PInv_stringLiteral h
    | numberLit => exact PInv_numberLiteral h
    | var => exact PInv_doVariable h
    | add =>
      exact PInv_emit _ _ ⟨by simp, by simp, by simp⟩
        (PInv_popE _ (ih _ _ (PInv_pushE (PInv_matchC _ _ h))))
    | subtract =>
      exact PInv_emit _ _ ⟨by simp, by simp, by simp⟩
        (PInv_popE _ (ih _ _ (PInv_pushE (PInv_matchC _ _ h))))
    | multiply =>
      exact PInv_emit _ _ ⟨by simp, by simp, by simp⟩
        (PInv_popE _ (ih _ _ (PInv_pushE (PInv_matchC _ _ h))))
    | divide =>
      exact PInv_emit _ _ ⟨by simp, by simp, by simp⟩
        (PInv_popE _ (ih _ _ (PInv_pushE (PInv_matchC _ _ h))))
    | not =>
      exact PInv_emit _ _ ⟨by simp, by simp, by simp⟩
        (ih _ _ (PInv_matchC _ _ h))
    | and =>
      exact PInv_emit _ _ ⟨by simp, by simp, by simp⟩
        (PInv_popE _ (ih _ _ (PInv_pushE (PInv_matchC _ _ (PInv_matchC _ _ h)))))
    | or =>
      exact PInv_emit _ _ ⟨by simp, by simp, by simp⟩
        (PInv_popE _ (ih _ _ (PInv_pushE (PInv_matchC _ _ h))))
    | equal =>
      exact PInv_emit _ _ ⟨by simp, by simp, by simp⟩
        (PInv_popE _ (ih _ _ (PInv_pushE (PInv_matchC _ _ (PInv_matchC _ _ h)))))
    | notEqual =>
      exact PInv_emit _ _ ⟨by simp, by simp, by simp⟩
        (PInv_popE _ (ih _ _ (PInv_pushE (PInv_matchC _ _ (PInv_matchC _ _ h)))))
    | less =>
      simp only [enter]
      split
      · exact PInv_emit _ _ ⟨by simp, by simp, by simp⟩
          (PInv_popE _ (ih _ _ (PInv_pushE (PInv_matchC _ _ (PInv_matchC _ _ h)))))
      · exact PInv_emit _ _ ⟨by simp, by simp, by simp⟩
          (PInv_popE _ (ih _ _ (PInv_pushE
            (PInv_skipWhitespace (PInv_matchC _ _ h)))))
    | greater =>
      simp only [enter]
      split
      · exact PInv_emit _ _ ⟨by simp, by simp, by simp⟩
          (PInv_popE _ (ih _ _ (PInv_pushE (PInv_matchC _ _ (PInv_matchC _ _ h)))))
      · exact PInv_emit _ _ ⟨by simp, by simp, by simp⟩
          (PInv_popE _ (ih _ _ (PInv_pushE
            (PInv_skipWhitespace (PInv_matchC _ _ h)))))
    | ternary =>
      exact PInv_emit _ _ ⟨by simp, by simp, by simp⟩
        (PInv_popE _ (PInv_popE _ (ih _ _ (PInv_matchC _ _
          (PInv_pushE (ih _ _ (PInv_pushE (PInv_matchC _ _ h))))))))
    | function =>
      simp only [enter]
      split
      · exact PInv_perror (PInv_variableName h)
      · split
        · split
          · exact PInv_funcFinish _ _
              (PInv_matchC _ _ (PInv_matchC _ _ (PInv_variableName h)))
          · exact ih _ _ (PInv_pushE (PInv_matchC _ _ (PInv_variableName h)))
        · exact PInv_funcFinish _ _ (PInv_skipWhitespace (PInv_variableName h))
    | funcArgs name num =>
      simp only [enter]
      split
      · exact PInv_funcFinish _ _ (PInv_matchC _ _ (PInv_pushE (ih _ _ h)))
      · split
        · exact ih _ _ (PInv_matchC _ _ (PInv_pushE (ih _ _ h)))
        · exact PInv_funcFinish _ _ (PInv_perror (PInv_pushE (ih _ _ h)))

/-- `Parse` establishes the invariant from the fresh state. -/
theorem PInv_parseWith (fuel : Nat) (s : Str) : PInv (parseWith fuel s) := by
  unfold parseWith
  dsimp only
  split
  · exact PInv_perror (PInv_enter fuel .expression _ ⟨0, rfl, rfl⟩)
  · exact PInv_enter fuel .expression _ ⟨0, rfl, rfl⟩

/-- One execution step of an instruction whose static stack effect is
defined either succeeds with exactly the counted stack size, or fails with
an error that is not a stack underflow. -/
theorem step_count (i : InstructionData) (es : ExecState) (m : Nat)
    (h : countStep i es.stack.length = some m) :
    (∃ es', step i es = .ok es' ∧ es'.stack.length = m) ∨
    (∃ e, step i es = .error e ∧ e ≠ .popEmptyStack ∧ e ≠ .argsUnderflow) := by
  unfold countStep at h
  unfold step
  cases hins : i.instruction
  all_goals rw [hins] at h
  all_goals dsimp only at h ⊢
  case push =>
    left
    injection h with h2
    exact ⟨_, rfl, h2⟩
  case pop =>
    by_cases h0 : es.stack.length = 0
    · rw [if_pos h0] at h
      cases h
    · rw [if_neg h0] at h
      injection h with h2
      cases hstack : es.stack with
      | nil => exact absurd (by rw [hstack]; rfl) h0
      | cons top rest =>
        have hlen : es.stack.length = rest.length + 1 := by rw [hstack]; rfl
        dsimp only
        split
        · left; refine ⟨_, rfl, ?_⟩; dsimp only; omega
        · left; refine ⟨_, rfl, ?_⟩; dsimp only; omega
        · left; refine ⟨_, rfl, ?_⟩; dsimp only; omega
        · right; exact ⟨_, rfl, by simp, by simp⟩
  case literal =>
    left
    injection h with h2
    exact ⟨_, rfl, h2⟩
  case varLookup =>
    left
    injection h with h2
    exact ⟨_, rfl, h2⟩
  case add =>
    injection h with h2
    split
    · left; exact ⟨_, rfl, h2⟩
    · left; exact ⟨_, rfl, h2⟩
  case subtract =>
    injection h with h2
    left; exact ⟨_, rfl, h2⟩
  case multiply =>
    injection h with h2
    left; exact ⟨_, rfl, h2⟩
  case divide =>
    injection h with h2
    left; exact ⟨_, rfl, h2⟩
  case not =>
    injection h with h2
    left; exact ⟨_, rfl, h2⟩
  case and =>
    injection h with h2
    left; exact ⟨_, rfl, h2⟩
  case or =>
    injection h with h2
    left; exact ⟨_, rfl, h2⟩
  case equal =>
    injection h with h2
    split
    · left; exact ⟨_, rfl, h2⟩
    · left; exact ⟨_, rfl, h2⟩
  case notEqual =>
    injection h with h2
    split
    · left; exact ⟨_, rfl, h2⟩
    · left; exact ⟨_, rfl, h2⟩
  case less =>
    injection h with h2
    left; exact ⟨_, rfl, h2⟩
  case lessEq =>
    injection h with h2
    left; exact ⟨_, rfl, h2⟩
  case greater =>
    injection h with h2
    left; exact ⟨_, rfl, h2⟩
  case greaterEq =>
    injection h with h2
    left; exact ⟨_, rfl, h2⟩
  case ternary =>
    injection h with h2
    left
    refine ⟨_, rfl, ?_⟩
    split
    · exact h2
    · exact h2
  case arguments =>
    by_cases hc : 0 ≤ i.data.getInt (-1) ∧ (i.data.getInt (-1)).toNat ≤ es.stack.length
    · rw [if_pos hc] at h
      injection h with h2
      by_cases ha : es.args ≠ []
      · right
        rw [if_pos ha]
        exact ⟨_, rfl, by simp, by simp⟩
      · rw [if_neg ha]
        try dsimp only
        rw [if_neg (not_lt.mpr hc.1), if_neg (not_lt.mpr hc.2)]
        left
        refine ⟨_, rfl, ?_⟩
        dsimp only
        rw [List.length_drop]
        exact h2
    · rw [if_neg hc] at h
      cases h
  case function =>
    injection h with h2
    left; exact ⟨_, rfl, h2⟩

/-- Executing a program whose recomputed stack count is defined never hits
an underflow branch: every `Pop` reaches a non-empty stack and every
`Arguments` at least its declared count. -/
theorem run_no_underflow : ∀ (p : Program) (es : ExecState) (n : Nat),
    progCount p es.stack.length = some n →
    run p es ≠ .error .popEmptyStack ∧ run p es ≠ .error .argsUnderflow := by
  intro p
  induction p with
  | nil => intro es n _; exact ⟨by simp [run], by simp [run]⟩
  | cons i t ih =>
    intro es n h
    simp only [progCount] at h
    cases hcs : countStep i es.stack.length with
    | none => rw [hcs] at h; cases h
    | some m =>
      rw [hcs] at h
      rcases step_count i es m hcs with ⟨es', hstep, hlen⟩ | ⟨e, hstep, he1, he2⟩
      · simp only [run]
        rw [hstep]
        exact ih es' n (by rw [hlen]; exact h)
      · simp only [run]
        rw [hstep]
        constructor
        · intro hx
          injection hx with hx
          exact he1 hx
        · intro hx
          injection hx with hx
          exact he2 hx

/-! ## Claims -/

/-- C1: code bug.  The claim (and the spec, and the source's own log
message "Data array index out of bounds") require `GetChild` on an array to
fail with `IndexOutOfBounds` for every index outside `[0, length)`.  The
source's guard is `if (index < 0 && index >= (int)ptr->size())` — a
conjunction that can never hold — so the error branch is dead: `GetChild`
never returns the empty `Variable`, and at index 5 of a length-3 array it
returns a handle to the out-of-bounds location `&arr[5]` (undefined
behaviour in C++, a dangling path here). -/
theorem c1_array_getchild_bounds_check_dead :
    (∀ (host : HostData) (u : VarDef) (p : Path) (e : AddressEntry),
      getChild host (.arrayDef u) p e ≠ none) ∧
    getChild (.arr [.scalar (.int 1), .scalar (.int 2), .scalar (.int 3)])
        (.arrayDef (.scalarDef .int)) [] (indexEntry 5)
      = some (.scalarDef .int, [Step.index 5]) ∧
    lookupAt (.arr [.scalar (.int 1), .scalar (.int 2), .scalar (.int 3)])
      [Step.index 5] = none := by
  refine ⟨?_, ?_, rfl⟩
  · intro host u p e
    rw [getChild_arrayDef]
    simp
  · rw [getChild_arrayDef]
    rfl

/-- C2 counterexample: the input `a[0]x` does not match the spec's address
grammar (after the bracket group a bare `x` follows), yet `ParseAddress`
returns the non-empty address `[name a, index 0]` instead of the empty
address the claim requires for every non-grammar input. -/
theorem c2_counterexample_trailing_chars :
    specAddressOk ['a', '[', '0', ']', 'x'] = false ∧
    ParseAddress ['a', '[', '0', ']', 'x'] = [nameEntry ['a'], indexEntry 0] ∧
    ParseAddress ['a', '[', '0', ']', 'x'] ≠ [] := by
  refine ⟨rfl, rfl, by decide⟩

/-- C2 (amended): `ParseAddress` is total and all-or-nothing in the sense
that the first malformed segment (empty segment, leading `[`, unclosed
bracket, or an index that does not parse to a non-negative integer)
invalidates the entire address, and the spec's two examples hold; however
characters between or after bracket groups are skipped, not rejected, so
some inputs outside the grammar still parse to a non-empty address.  The
third conjunct characterises emptiness exactly: the result is empty iff
some dot-separated segment fails `segParse`. -/
theorem c2_amended_parse_address :
    ParseAddress ['a', '.', 'b', '[', '2', ']', '.', 'c']
      = [nameEntry ['a'], nameEntry ['b'], indexEntry 2, nameEntry ['c']] ∧
    ParseAddress ['a', '['] = [] ∧
    ∀ s : Str, ParseAddress s = [] ↔ ∃ item ∈ splitOnDot s, segParse item = none := by
  refine ⟨rfl, rfl, fun s => ?_⟩
  unfold ParseAddress
  cases hp : parseSegs (splitOnDot s) with
  | none =>
    simp only [Option.getD]
    exact ⟨fun _ => (parseSegs_eq_none_iff _).mp hp, fun _ => trivial⟩
  | some a =>
    simp only [Option.getD]
    constructor
    · intro h; exact absurd h (parseSegs_some_ne_nil hp)
    · intro hex
      have := (parseSegs_eq_none_iff _).mpr hex
      rw [hp] at this; cases this

/-- C3 counterexample: the compiler does not give `==` lower precedence
than `+`.  `1==1+1` compiles to the left-to-right program `(1==1)+1`,
which executes to the float 2 (the boolean true coerces to 1), whereas the
claimed grouping `1==(1+1)` (the program `specGroupedProgram`) executes to
false, printed "0".  The two results differ, refuting the claimed
precedence at this input. -/
theorem c3_counterexample_flat_precedence :
    c3St.parseError = false ∧
    c3St.program =
      [⟨.literal, .float 1⟩, ⟨.push, .none⟩, ⟨.literal, .float 1⟩,
       ⟨.pop, .int 1⟩, ⟨.equal, .none⟩, ⟨.push, .none⟩, ⟨.literal, .float 1⟩,
       ⟨.pop, .int 1⟩, ⟨.add, .none⟩] ∧
    executeCtx c3St = ['2'] ∧
    executeProgram specGroupedProgram = ['0'] ∧
    executeCtx c3St ≠ executeProgram specGroupedProgram := by
  refine ⟨rfl, by decide, by decide, by decide, by decide⟩

/-- C3 (amended): only `*` and `/` bind tighter (parsed inside `Term`),
with `!` and primaries tightest; every other operator — `+ - == != < <= >
>= && || ?:` and the pipe — is handled in one flat left-to-right loop whose
right operand extends only to the next `Term`.  So `2*3+4` multiplies
before adding and `1+2*3` compiles the product as the right operand of `+`,
but `1==1+1` compiles as `(1==1)+1` and `true||false&&false` evaluates as
`(true||false)&&false`, i.e. false. -/
theorem c3_amended_flat_precedence :
    c3MulAdd.program =
      [⟨.literal, .float 2⟩, ⟨.push, .none⟩, ⟨.literal, .float 3⟩,
       ⟨.pop, .int 1⟩, ⟨.multiply, .none⟩, ⟨.push, .none⟩,
       ⟨.literal, .float 4⟩, ⟨.pop, .int 1⟩, ⟨.add, .none⟩] ∧
    c3AddMul.program =
      [⟨.literal, .float 1⟩, ⟨.push, .none⟩, ⟨.literal, .float 2⟩,
       ⟨.push, .none⟩, ⟨.literal, .float 3⟩, ⟨.pop, .int 1⟩,
       ⟨.multiply, .none⟩, ⟨.pop, .int 1⟩, ⟨.add, .none⟩] ∧
    c3St.program =
      [⟨.literal, .float 1⟩, ⟨.push, .none⟩, ⟨.literal, .float 1⟩,
       ⟨.pop, .int 1⟩, ⟨.equal, .none⟩, ⟨.push, .none⟩, ⟨.literal, .float 1⟩,
       ⟨.pop, .int 1⟩, ⟨.add, .none⟩] ∧
    c3OrAnd.parseError = false ∧
    executeCtx c3OrAnd = ['0'] := by
  refine ⟨by decide, by decide, by decide, rfl, by decide⟩

/-- C4 counterexample: executing `Less` on the string operands "a" and "b"
coerces both to float (both parse to 0) and yields false, while the
claim's lexical comparison of "a" and "b" yields true — the relational
operators do not get the string dispatch the claim asserts. -/
theorem c4_counterexample_less_on_strings :
    run (binProg .less (.str ['a']) (.str ['b'])) ExecState.init
      = .ok ⟨.bool false, .str ['a'], .none, [], []⟩ ∧
    specLexicalLess ['a'] ['b'] = true :=
  ⟨rfl, rfl⟩

/-- C4 (amended): at execution time `+` concatenates and `==`/`!=` compare
as strings when either resolved operand is a string (decided per call by
`AnyString`), and coerce both operands to float otherwise; but the
relational operators `<`, `<=`, `>`, `>=` — like `-`, `*`, `/` — always
coerce both operands to float, even for string operands. -/
theorem c4_amended_string_dispatch (v1 v2 : Variant) :
    run (binProg .add v1 v2) ExecState.init
      = .ok ⟨if anyString v1 v2 then .str (v1.getString ++ v2.getString)
             else .float (Flt.add v1.getFloat v2.getFloat), v1, .none, [], []⟩ ∧
    run (binProg .equal v1 v2) ExecState.init
      = .ok ⟨.bool (if anyString v1 v2 then decide (v1.getString = v2.getString)
             else Flt.beq v1.getFloat v2.getFloat), v1, .none, [], []⟩ ∧
    run (binProg .notEqual v1 v2) ExecState.init
      = .ok ⟨.bool (if anyString v1 v2 then decide (v1.getString ≠ v2.getString)
             else !Flt.beq v1.getFloat v2.getFloat), v1, .none, [], []⟩ ∧
    run (binProg .less v1 v2) ExecState.init
      = .ok ⟨.bool (Flt.blt v1.getFloat v2.getFloat), v1, .none, [], []⟩ ∧
    run (binProg .lessEq v1 v2) ExecState.init
      = .ok ⟨.bool (Flt.ble v1.getFloat v2.getFloat), v1, .none, [], []⟩ ∧
    run (binProg .greater v1 v2) ExecState.init
      = .ok ⟨.bool (Flt.blt v2.getFloat v1.getFloat), v1, .none, [], []⟩ ∧
    run (binProg .greaterEq v1 v2) ExecState.init
      = .ok ⟨.bool (Flt.ble v2.getFloat v1.getFloat), v1, .none, [], []⟩ ∧
    run (binProg .subtract v1 v2) ExecState.init
      = .ok ⟨.float (Flt.sub v1.getFloat v2.getFloat), v1, .none, [], []⟩ ∧
    run (binProg .multiply v1 v2) ExecState.init
      = .ok ⟨.float (Flt.mul v1.getFloat v2.getFloat), v1, .none, [], []⟩ ∧
    run (binProg .divide v1 v2) ExecState.init
      = .ok ⟨.float (Flt.div v1.getFloat v2.getFloat), v1, .none, [], []⟩ := by
  refine ⟨?_, ?_, ?_, ?_, ?_, ?_, ?_, ?_, ?_, ?_⟩ <;>
    cases h : anyString v1 v2 <;>
      simp [binProg, run, step, h, Variant.getInt, ExecState.init]

/-- C6: a runtime failure aborts the run at the failing instruction (no
later instruction executes) and the expression yields the empty value.
The context keeps no cache of previously computed results — each
`Execute` builds a fresh `ExecutionContext` — so the claim's "previously
cached value" never exists and its fallback (the empty value) is the
behaviour on every runtime failure. -/
theorem c6_runtime_failure_aborts_and_yields_empty :
    (∀ (p q : Program) (es : ExecState) (e : ExErr),
      run p es = .error e → run (p ++ q) es = .error e) ∧
    (∀ (p : Program) (e : ExErr),
      run p ExecState.init = .error e → executeProgram p = []) ∧
    (∀ (st : PSt) (e : ExErr), st.parseError = false →
      run st.program ExecState.init = .error e → executeCtx st = []) := by
  have habort : ∀ (p q : Program) (es : ExecState) (e : ExErr),
      run p es = .error e → run (p ++ q) es = .error e := by
    intro p
    induction p with
    | nil => intro q es e h; simp [run] at h
    | cons i t ih =>
      intro q es e h
      simp only [run, List.cons_append] at h ⊢
      cases hs : step i es with
      | ok es' => rw [hs] at h; exact ih q es' e h
      | error e' => rw [hs] at h; exact h
  refine ⟨habort, ?_, ?_⟩
  · intro p e h
    unfold executeProgram
    rw [h]
  · intro st e hp h
    simp only [executeCtx, hp, if_false, Bool.false_eq_true]
    unfold executeProgram
    rw [h]

/-- Witness for C6 at a concrete failing program: `Pop` on an empty stack
aborts (a following instruction is never reached) and the expression
yields the empty value, both through `executeProgram` and through a parsed
context carrying that program. -/
theorem c6_runtime_failure_witness :
    run ([⟨.pop, .int 0⟩] ++ [⟨.literal, .none⟩]) ExecState.init
      = .error .popEmptyStack ∧
    executeProgram [⟨.pop, .int 0⟩] = [] ∧
    executeCtx ⟨[], 0, true, false, 0, [⟨.pop, .int 0⟩]⟩ = [] :=
  ⟨c6_runtime_failure_aborts_and_yields_empty.1 _ _ _ _ rfl,
   c6_runtime_failure_aborts_and_yields_empty.2.1 _ .popEmptyStack rfl,
   c6_runtime_failure_aborts_and_yields_empty.2.2 _ .popEmptyStack rfl rfl⟩

/-- C8: code bug.  The base-class contract (DataView.h: "Returns true if
the update resulted in a change") and the claim require `Update` to return
true exactly when a change was pushed, including instantiating or
destroying For-view children; but `DataViewFor::Update` never assigns its
local `result` flag, so it returns false on every path — here concretely
while growing from 0 to 1 children (a change it just made). -/
theorem c8_for_view_update_returns_false :
    (∀ (vars : Bindings) (host : HostData) (view : ForView) (ctx : DomCtx),
      (updateFor vars host view ctx).1 = false) ∧
    (updateFor c8Vars c8Host c8View ⟨0, [], []⟩).2.1.elements = [some 0] ∧
    (updateFor c8Vars c8Host c8View ⟨0, [], []⟩).2.1 ≠ c8View := by
  refine ⟨?_, rfl, by decide⟩
  intro vars host view ctx
  unfold updateFor
  cases getVariableAddr vars host view.variableAddress <;> rfl

/-- C5: scalar `Set` round-trips (conversions spec-modelled, since the
`Variant` class is outside the given sources).  When the address resolves
to a scalar field and the dynamic value converts to the field's type,
`Model::SetValue` succeeds, the host field holds the converted value, and
a subsequent `Model::GetValue` returns the written value; when the
conversion fails, `SetValue` reports failure and the whole host tree — in
particular the target field — is unchanged. -/
theorem c5_scalar_set_roundtrip
    (vars : Bindings) (host : HostData) (s : Str) (v : Variant)
    (ty : ScalarTy) (p : Path) (w0 : HostVal)
    (hres : getVariableStr vars host s = some (.scalarDef ty, p))
    (hloc : lookupAt host p = some (.scalar w0)) :
    (∀ w, convert v ty = some w →
      ∃ host', setValue vars host s v = (true, host') ∧
        lookupAt host' p = some (.scalar w) ∧
        getValue vars host' s = toVariant w) ∧
    (convert v ty = none → setValue vars host s v = (false, host)) := by
  constructor
  · intro w hw
    obtain ⟨host', hset, hlook⟩ := lookupAt_setAt p host (.scalar w) _ hloc
    refine ⟨host', ?_, hlook, ?_⟩
    · unfold setValue
      rw [hres]
      simp [VarDef.vtype, defSet, hw, hset]
    · unfold getValue
      rw [getVariableStr_host_irrel vars host' host s, hres]
      simp [VarDef.vtype, defGet, hlook, convert_ty v ty w hw]
  · intro hnone
    unfold setValue
    rw [hres]
    simp [VarDef.vtype, defSet, hnone]

/-- Reduction of `DataViewFor::Update` once the variable resolves. -/
theorem updateFor_eq (vars : Bindings) (host : HostData) (view : ForView)
    (ctx : DomCtx) (v : VarDef × Path)
    (hres : getVariableAddr vars host view.variableAddress = some v) :
    updateFor vars host view ctx =
      (false,
       { view with elements :=
          if view.elements.length > varSize host v
          then (forLoop view.variableAddress view.aliasName (varSize host v)
                view.elements.length (max (varSize host v) view.elements.length) 0
                ⟨view.elements, ctx⟩).elements.take (varSize host v)
          else (forLoop view.variableAddress view.aliasName (varSize host v)
                view.elements.length (max (varSize host v) view.elements.length) 0
                ⟨view.elements, ctx⟩).elements },
       (forLoop view.variableAddress view.aliasName (varSize host v)
         view.elements.length (max (varSize host v) view.elements.length) 0
         ⟨view.elements, ctx⟩).ctx) := by
  unfold updateFor
  rw [hres]

/-- C7: after `DataViewFor::Update` completes on a resolved variable, the
child-element count equals the bound array's current length, and the
change is tail-only.  Growing from `n` to `size` appends exactly
`size - n` freshly instantiated children, registering for each new index
`n + j` an alias from the loop variable to `variable_address + [n + j]`,
and destroys nothing; shrinking from `n` to `size` keeps the first `size`
children untouched, destroys exactly the `n - size` trailing children, and
erases exactly their aliases. -/
theorem c7_for_view_tail_only
    (vars : Bindings) (host : HostData) (view : ForView) (ctx : DomCtx)
    (v : VarDef × Path)
    (hres : getVariableAddr vars host view.variableAddress = some v) :
    ((updateFor vars host view ctx).2.1.elements.length = varSize host v) ∧
    (view.elements.length ≤ varSize host v →
      (updateFor vars host view ctx).2.1.elements =
        view.elements ++ (List.range (varSize host v - view.elements.length)).map
          (fun j => some (ctx.nextId + j)) ∧
      (updateFor vars host view ctx).2.2.aliases =
        ctx.aliases ++ (List.range (varSize host v - view.elements.length)).map
          (fun j => (ctx.nextId + j,
            (view.aliasName, view.variableAddress ++
              [indexEntry ((view.elements.length + j : Nat) : Int)]))) ∧
      (updateFor vars host view ctx).2.2.destroyed = ctx.destroyed) ∧
    (∀ ids : List Nat, varSize host v ≤ view.elements.length →
      view.elements.drop (varSize host v) = ids.map some →
      (updateFor vars host view ctx).2.1.elements =
        view.elements.take (varSize host v) ∧
      (updateFor vars host view ctx).2.2.aliases = eraseIds ctx.aliases ids ∧
      (updateFor vars host view ctx).2.2.destroyed = ctx.destroyed ++ ids ∧
      (updateFor vars host view ctx).2.2.nextId = ctx.nextId) := by
  rw [updateFor_eq vars host view ctx v hres]
  have hgrow : view.elements.length ≤ varSize host v →
      forLoop view.variableAddress view.aliasName (varSize host v)
        view.elements.length (max (varSize host v) view.elements.length) 0
        ⟨view.elements, ctx⟩ =
      ⟨view.elements ++ (List.range (varSize host v - view.elements.length)).map
          (fun j => some (ctx.nextId + j)),
       ⟨ctx.nextId + (varSize host v - view.elements.length),
        ctx.aliases ++ (List.range (varSize host v - view.elements.length)).map
          (fun j => (ctx.nextId + j,
            (view.aliasName, view.variableAddress ++
              [indexEntry ((view.elements.length + j : Nat) : Int)]))),
        ctx.destroyed⟩⟩ := by
    intro hg
    rw [Nat.max_eq_left hg]
    have hcast : forLoop view.variableAddress view.aliasName (varSize host v)
        view.elements.length (varSize host v) 0 ⟨view.elements, ctx⟩ =
        forLoop view.variableAddress view.aliasName (varSize host v)
        view.elements.length
        (view.elements.length + (varSize host v - view.elements.length)) 0
        ⟨view.elements, ctx⟩ := by
      congr 1
      omega
    rw [hcast, forLoop_add,
      forLoop_id _ _ _ _ view.elements.length 0 _ (by omega) (by omega),
      Nat.zero_add,
      forLoop_grow _ _ _ _ (varSize host v - view.elements.length)
        view.elements.length ⟨view.elements, ctx⟩ (by omega) (by omega)]
  have hshrink : ∀ ids : List Nat, varSize host v ≤ view.elements.length →
      view.elements.drop (varSize host v) = ids.map some →
      forLoop view.variableAddress view.aliasName (varSize host v)
        view.elements.length (max (varSize host v) view.elements.length) 0
        ⟨view.elements, ctx⟩ =
      ⟨setNoneRange view.elements (varSize host v)
          (view.elements.length - varSize host v),
       ⟨ctx.nextId, eraseIds ctx.aliases ids, ctx.destroyed ++ ids⟩⟩ := by
    intro ids hg hids
    rw [Nat.max_eq_right hg]
    have hcast : forLoop view.variableAddress view.aliasName (varSize host v)
        view.elements.length view.elements.length 0 ⟨view.elements, ctx⟩ =
        forLoop view.variableAddress view.aliasName (varSize host v)
        view.elements.length
        (varSize host v + (view.elements.length - varSize host v)) 0
        ⟨view.elements, ctx⟩ := by
      congr 1
      omega
    rw [hcast, forLoop_add,
      forLoop_id _ _ _ _ (varSize host v) 0 _ (by omega) (by omega),
      Nat.zero_add,
      forLoop_shrink _ _ _ _ (view.elements.length - varSize host v)
        (varSize host v) ⟨view.elements, ctx⟩ ids (by omega) (by omega)
        (by show varSize host v + (view.elements.length - varSize host v) ≤
              view.elements.length
            omega) ?_]
    · rw [List.take_of_length_le (by simp), hids]
  refine ⟨?_, ?_, ?_⟩
  · by_cases hc : view.elements.length ≤ varSize host v
    · rw [hgrow hc, if_neg (show ¬view.elements.length > varSize host v by omega)]
      simp only [List.length_append, List.length_map, List.length_range]
      omega
    · have hc2 : varSize host v ≤ view.elements.length := by omega
      rw [if_pos (show view.elements.length > varSize host v by omega),
        Nat.max_eq_right hc2, List.length_take,
        forLoop_len_nogrow _ _ _ _ _ 0 _ (by omega)]
      show min (varSize host v) view.elements.length = varSize host v
      omega
  · intro hg
    rw [hgrow hg, if_neg (show ¬view.elements.length > varSize host v by omega)]
    exact ⟨rfl, rfl, rfl⟩
  · intro ids hg hids
    rw [hshrink ids hg hids]
    by_cases heq : varSize host v = view.elements.length
    · have hids2 : ids = [] := by
        have hde : view.elements.drop (varSize host v) = [] := by
          rw [heq]
          simp
        rw [hde] at hids
        cases ids with
        | nil => rfl
        | cons a t => simp at hids
      subst hids2
      rw [if_neg (show ¬view.elements.length > varSize host v by omega)]
      have hz : view.elements.length - varSize host v = 0 := by omega
      rw [hz]
      refine ⟨?_, rfl, rfl, rfl⟩
      rw [heq, List.take_length]
      rfl
    · rw [if_pos (show view.elements.length > varSize host v by omega)]
      exact ⟨take_setNoneRange _ _ _ _ (le_refl _), rfl, rfl, rfl⟩

/-- Witness for C7 at the spec's 3→5 example: a For-view with children
0,1,2 bound to a five-element array instantiates exactly the two trailing
children 10 and 11 with aliases for indices 3 and 4, destroying nothing. -/
theorem c7_for_view_tail_only_witness :
    (updateFor c8Vars c7Host c7View ⟨10, [], []⟩).2.1.elements =
      c7View.elements ++ (List.range 2).map (fun j => some (10 + j)) ∧
    (updateFor c8Vars c7Host c7View ⟨10, [], []⟩).2.2.aliases =
      [] ++ (List.range 2).map (fun j => (10 + j,
        (c7View.aliasName, c7View.variableAddress ++
          [indexEntry ((3 + j : Nat) : Int)]))) ∧
    (updateFor c8Vars c7Host c7View ⟨10, [], []⟩).2.2.destroyed = [] :=
  (c7_for_view_tail_only c8Vars c7Host c7View ⟨10, [], []⟩
    (.arrayDef (.scalarDef .int), []) rfl).2.1 (by decide)

/-- C9: within one cycle of `DataViews::Update`, the dirty-view list —
newly added views plus every view the `name_view_map` multimap associates
with a dirty name — is sorted and de-duplicated before the update loop, so
the final depth-ordered schedule invokes `Update` exactly once on each
view that is newly added or reachable from the dirty-name set, and never
on any other view: duplicate dirty triggers are coalesced, and a view runs
again only when a later retry cycle (entered because views were added)
rebuilds the schedule. -/
theorem c9_update_pass_coalesced (depth : Nat → Nat) (viewsToAdd : List Nat)
    (nameViewMap : List (Str × Nat)) (dirtyVariables : List Str) (v : Nat) :
    (updateSchedule depth viewsToAdd nameViewMap dirtyVariables).count v =
      (if v ∈ viewsToAdd ∨ ∃ nm ∈ dirtyVariables, (nm, v) ∈ nameViewMap
       then 1 else 0) := by
  unfold updateSchedule gatherDirtyViews
  rw [isortBy_count]
  have hnodup :
      (uniqueConsec (isortBy (fun a => a) (viewsToAdd ++
        dirtyVariables.flatMap (fun nm =>
          (nameViewMap.filter (fun e => e.1 = nm)).map (fun e => e.2))))).Nodup :=
    uniqueConsec_nodup _ (isortBy_pairwise _ _)
  have hmem :
      v ∈ uniqueConsec (isortBy (fun a => a) (viewsToAdd ++
        dirtyVariables.flatMap (fun nm =>
          (nameViewMap.filter (fun e => e.1 = nm)).map (fun e => e.2)))) ↔
      (v ∈ viewsToAdd ∨ ∃ nm ∈ dirtyVariables, (nm, v) ∈ nameViewMap) := by
    rw [uniqueConsec_mem, isortBy_mem, List.mem_append]
    apply or_congr Iff.rfl
    simp only [List.mem_flatMap, List.mem_map, List.mem_filter, decide_eq_true_eq]
    constructor
    · rintro ⟨nm, hnm, e, ⟨he, h1⟩, h2⟩
      have he2 : (nm, v) = e := by
        cases e
        cases h1
        cases h2
        rfl
      exact ⟨nm, hnm, he2 ▸ he⟩
    · rintro ⟨nm, hnm, hin⟩
      exact ⟨nm, hnm, (nm, v), ⟨hin, rfl⟩, rfl⟩
  by_cases hv : v ∈ viewsToAdd ∨ ∃ nm ∈ dirtyVariables, (nm, v) ∈ nameViewMap
  · rw [if_pos hv]
    exact List.count_eq_one_of_mem hnodup (hmem.mpr hv)
  · rw [if_neg hv]
    exact List.count_eq_zero_of_not_mem (fun h => hv (hmem.mp h))

/-- Witness for C5: writing the string "199" into the int field `data.x`
(initially 5) succeeds, stores the converted 199, and reads back 199 — the
same conversion the repository's own `TestDataVariable` exercises. -/
theorem c5_scalar_set_roundtrip_witness :
    ∃ host', setValue c5Vars c5Host c5Addr (.str ['1', '9', '9']) = (true, host') ∧
      lookupAt host' [Step.member ['x']] = some (.scalar (.int 199)) ∧
      getValue c5Vars host' c5Addr = .int 199 :=
  (c5_scalar_set_roundtrip c5Vars c5Host c5Addr (.str ['1', '9', '9'])
    .int [Step.member ['x']] (.int 5) rfl rfl).1 (.int 199) rfl

/-- C10: for every expression string the compiler accepts without a parse
error, the tracked `program_stack_size` agrees with the recomputed stack
count of the emitted program (the emission-time guard), and executing that
program from a fresh execution context can never reach either stack
underflow branch: `run` never returns the empty-stack `Pop` error nor the
insufficient-entries `Arguments` error. -/
theorem c10_no_stack_underflow (fuel : Nat) (s : Str)
    (hok : (parseWith fuel s).parseError = false) :
    (∃ n : Nat, progCount (parseWith fuel s).program 0 = some n ∧
        (parseWith fuel s).programStackSize = (n : Int)) ∧
    run (parseWith fuel s).program ExecState.init ≠ .error .popEmptyStack ∧
    run (parseWith fuel s).program ExecState.init ≠ .error .argsUnderflow := by
  obtain ⟨n, h1, h2⟩ := PInv_parseWith fuel s
  exact ⟨⟨n, h1, h2⟩, run_no_underflow _ ExecState.init n h1⟩

/-- Witness for C10: the accepted expression "1==1+1" compiles without a
parse error and its program executes with no stack underflow. -/
theorem c10_no_stack_underflow_witness :
    (parseWith 64 ['1', '=', '=', '1', '+', '1']).parseError = false ∧
    (run (parseWith 64 ['1', '=', '=', '1', '+', '1']).program ExecState.init ≠
        .error .popEmptyStack ∧
      run (parseWith 64 ['1', '=', '=', '1', '+', '1']).program ExecState.init ≠
        .error .argsUnderflow) :=
  ⟨rfl, (c10_no_stack_underflow 64 ['1', '=', '=', '1', '+', '1'] rfl).2⟩

end Rml
